import Mathlib

/-!
Verification of the cut-precision measurement pipeline.

Shallow embedding of the algorithmic core of the `cut_precision` Python
package: metrics and IPN scoring (`metrics.py`), closed-contour resampling
(`resample.py`), the three homography estimators (`register.py`), the
registration selector (`pipeline_service.py`), and the tau calibration
engine (`tau.py`).

Conventions of the embedding:
* Python floats are modelled as rationals (`ℚ`); IEEE rounding is out of
  scope, all arithmetic identities are exact.
* Functions that `raise` are modelled as `Except String` values carrying
  the source's error message.
* Calls into OpenCV / scipy (feature detection, RANSAC, ECC, axis/line
  detection) are external to the repository; their outcomes enter the
  embedding as explicit oracle arguments, and everything the repository
  computes from those outcomes is embedded faithfully.
* Euclidean segment lengths are irrational in general; where the code
  only threads lengths through its control flow (the resampler's point
  count), the length function is taken as a parameter and theorems are
  proved for every length function.
-/

namespace CutPrecision

/-- A 2-D point with rational coordinates. -/
abbrev Point : Type := ℚ × ℚ

/-! ## metrics.py -/

/-- Summary statistics over a distance array, from `metrics.MetricsSummary`.
The source stores `std = sqrt(mean((x - mean)^2))`; the square root is
irrational, so the embedding carries its square `std_sq` (no claim touches
the standard deviation). -/
structure MetricsSummary where
  mad : ℚ
  std_sq : ℚ
  p95 : ℚ
  max_error : ℚ
  deriving DecidableEq

/-- Sort a list of rationals ascending (models Python `sorted` / `np.sort`). -/
def sortQ (l : List ℚ) : List ℚ :=
  l.insertionSort (· ≤ ·)

/-- Arithmetic mean of a list (models `np.mean`); 0 on the empty list, which
callers guard against. -/
def listMean (l : List ℚ) : ℚ :=
  l.sum / l.length

/-- Maximum of a list (models `np.max`); 0 on the empty list, which callers
guard against. -/
def listMax : List ℚ → ℚ
  | [] => 0
  | x :: xs => xs.foldl max x

/-- Linear-interpolation percentile of a list (models `np.percentile` with the
default interpolation): rank `h = q/100 * (n-1)`, interpolate between the
floor and ceiling order statistics. -/
def np_percentile (l : List ℚ) (q : ℚ) : ℚ :=
  let s := sortQ l
  let n := s.length
  let h : ℚ := q / 100 * ((n : ℚ) - 1)
  let lo : ℕ := (Int.floor h).toNat
  let hi : ℕ := (Int.ceil h).toNat
  let vlo := s.getD lo 0
  let vhi := s.getD hi 0
  vlo + (h - (Int.floor h : ℚ)) * (vhi - vlo)

/-- Embeds `metrics.compute_statistics`: mean, population standard deviation
(kept as its square), 95th percentile and maximum of a distance array;
raises on an empty array. -/
def compute_statistics (distances : List ℚ) : Except String MetricsSummary :=
  if distances.isEmpty then
    .error "Distance array is empty"
  else
    let m := listMean distances
    .ok
      { mad := m
        std_sq := listMean (distances.map (fun x => (x - m) ^ 2))
        p95 := np_percentile distances 95
        max_error := listMax distances }

/-- Embeds `metrics.compute_ipn`: `tolerance = tau * scale`,
`raw = 100 * (1 - mad / tolerance)`, result clamped to
`[clamp_low, clamp_high]`; raises on non-positive scale or tau.
Returns the pair `(score, tolerance)`. -/
def compute_ipn (mad scale tau : ℚ) (clamp_low : ℚ := 0)
    (clamp_high : ℚ := 100) : Except String (ℚ × ℚ) :=
  if scale ≤ 0 then .error "Scale must be positive"
  else if tau ≤ 0 then .error "Tau must be positive"
  else
    let tolerance := tau * scale
    let raw := 100 * (1 - mad / tolerance)
    .ok (min clamp_high (max clamp_low raw), tolerance)

/-! ## resample.py -/

/-- Elementwise `np.allclose` test for two 2-D points, with numpy's default
tolerances `rtol = 1e-5`, `atol = 1e-8`: `|a - b| ≤ atol + rtol * |b|`. -/
def allclose2 (a b : Point) : Bool :=
  decide (|a.1 - b.1| ≤ 1 / 10 ^ 8 + 1 / 10 ^ 5 * |b.1|) &&
  decide (|a.2 - b.2| ≤ 1 / 10 ^ 8 + 1 / 10 ^ 5 * |b.2|)

/-- Embeds `resample.ensure_closed`: append the first point when the first and
last point are not approximately equal. -/
def ensure_closed (points : List Point) : List Point :=
  match points with
  | [] => []
  | p :: ps =>
    if allclose2 p ((p :: ps).getLast (by simp)) then p :: ps
    else (p :: ps) ++ [p]

/-- Consecutive point pairs of a polyline (the `closed[1:] - closed[:-1]`
segments, kept as endpoint pairs). -/
def polySegments (points : List Point) : List (Point × Point) :=
  points.zip points.tail

/-- Cumulative sums starting from `a` (the tail of `np.cumsum`). -/
def cumsum_from (a : ℚ) : List ℚ → List ℚ
  | [] => []
  | x :: xs => (a + x) :: cumsum_from (a + x) xs

/-- The arc-length table `arc = concatenate(([0], cumsum(seg_len)))`. -/
def arc_table (segLens : List ℚ) : List ℚ :=
  0 :: cumsum_from 0 segLens

/-- Total arc length of the closed contour built from `points` under the
segment-length function `len2` (the source uses the Euclidean norm). -/
def totalArcLen (len2 : Point → Point → ℚ) (points : List Point) : ℚ :=
  (arc_table ((polySegments (ensure_closed points)).map
    (fun pq => len2 pq.1 pq.2))).getLastD 0

/-- `np.searchsorted(arc, t, side="right") - 1` followed by
`np.clip(·, 0, len(seg_len) - 1)`, for a sorted `arc`. -/
def segIndex (arc : List ℚ) (nSegs : ℕ) (t : ℚ) : ℕ :=
  let raw : ℤ := (arc.countP (fun a => decide (a ≤ t)) : ℤ) - 1
  (min (max raw 0) ((nSegs : ℤ) - 1)).toNat

/-- Embeds `resample.resample_closed_contour` over an arbitrary segment-length
function `len2` (the source's Euclidean norm is irrational; every claim about
this function concerns only the control flow and the number of returned
points, which are proved for every `len2`). -/
def resample_closed_contour (len2 : Point → Point → ℚ) (points : List Point)
    (step_px : Option ℚ := some (3 / 2)) (num_points : Option ℕ := none)
    (max_points : Option ℕ := some 20000) : Except String (List Point) :=
  if points.length < 3 then .error "Contour needs at least 3 points"
  else
    let closed := ensure_closed points
    let segs := polySegments closed
    let segLens := segs.map (fun pq => len2 pq.1 pq.2)
    let arc := arc_table segLens
    let total := arc.getLastD 0
    if total ≤ 0 then .error "Contour has zero perimeter"
    else
      let resolved : Except String ℕ :=
        match num_points with
        | some n => .ok n
        | none =>
          match step_px with
          | none => .error "Provide either step_px or num_points"
          | some s => .ok (max 8 (Int.ceil (total / s))).toNat
      match resolved with
      | .error e => .error e
      | .ok n0 =>
        let n := match max_points with
          | none => n0
          | some m => min n0 m
        let targets := (List.range n).map
          (fun (i : ℕ) => total * (i : ℚ) / (n : ℚ))
        .ok (targets.map (fun t =>
          let idx := segIndex arc segLens.length t
          let start := closed.getD idx (0, 0)
          let next := closed.getD (idx + 1) (0, 0)
          let slen := segLens.getD idx 0
          let denom := if slen = 0 then 1 else slen
          let localT := (t - arc.getD idx 0) / denom
          (start.1 + localT * (next.1 - start.1),
           start.2 + localT * (next.2 - start.2))))

/-! ## register.py

The OpenCV calls (ORB detection, brute-force kNN matching, RANSAC homography
fitting, the reprojection-error norm, axis-frame detection, ECC alignment)
are external; their outcomes are supplied as oracle arguments, and the
control flow and arithmetic the repository performs on them is embedded. -/

/-- A 3×3 homography matrix with rational entries. -/
abbrev Mat3 : Type := Fin 3 → Fin 3 → ℚ

/-- The 3×3 identity matrix (`np.eye(3)`). -/
def identity3 : Mat3 := fun i j => if i = j then 1 else 0

/-- Embeds `register.RegistrationResult`. -/
structure RegistrationResult where
  success : Bool
  homography : Mat3
  method : String
  matches_total : ℕ
  matches_used : ℕ
  inlier_frac : ℚ
  reprojection_error_px : Option ℚ
  reason : Option String := none
  deriving DecidableEq

/-- The fields of `config.RegistrationConfig` that the estimators' embedded
control flow reads. -/
structure RegistrationConfig where
  knn_frac : ℚ
  min_matches : ℕ
  ransac_reproj_threshold : ℚ
  min_inlier_frac : ℚ
  ecc_motion : String
  deriving DecidableEq

/-- Oracle outcomes of the OpenCV calls made by `estimate_homography_orb`:
whether each `detectAndCompute` produced descriptors, the kNN match distance
lists (`pair` entries of length ≠ 2 are skipped by the source), the
`cv2.findHomography` outcome (matrix and boolean inlier mask), and the mean
reprojection error `_compute_reprojection_error` computes over the inlier
correspondences. -/
structure OrbOracle where
  des_t_present : Bool
  des_s_present : Bool
  knn_matches : List (List ℚ)
  find_homography : Option (Mat3 × List Bool)
  reproj_error : Option ℚ

/-- A kNN pair survives the ratio test when it has exactly two entries and
`m.distance < cfg.knn_ratio * n.distance`. -/
def knnPairGood (cfg : RegistrationConfig) : List ℚ → Bool
  | [m, n] => decide (m < cfg.knn_frac * n)
  | _ => false

/-- Fraction of `true` entries of a boolean inlier mask (`inliers.mean()`),
0 when the mask is empty. -/
def maskMean (mask : List Bool) : ℚ :=
  if mask.length = 0 then 0 else (mask.countP id : ℚ) / mask.length

/-- Embeds `register.estimate_homography_orb` over the OpenCV oracle:
descriptor check, ratio-test filtering, minimum match count, homography
fitting, inlier-ratio floor. -/
def estimate_homography_orb (cfg : RegistrationConfig) (o : OrbOracle) :
    RegistrationResult :=
  if o.des_t_present = false ∨ o.des_s_present = false then
    { success := false, homography := identity3, method := "identity_fallback"
      matches_total := 0, matches_used := 0, inlier_frac := 0
      reprojection_error_px := none, reason := some "missing_descriptors" }
  else
    let good := o.knn_matches.countP (knnPairGood cfg)
    if good < cfg.min_matches then
      { success := false, homography := identity3, method := "identity_fallback"
        matches_total := o.knn_matches.length, matches_used := good
        inlier_frac := 0, reprojection_error_px := none
        reason := some "not_enough_matches" }
    else
      match o.find_homography with
      | none =>
        { success := false, homography := identity3
          method := "identity_fallback", matches_total := o.knn_matches.length
          matches_used := good, inlier_frac := 0
          reprojection_error_px := none, reason := some "homography_failed" }
      | some (hmat, mask) =>
        let ratio := maskMean mask
        if ratio < cfg.min_inlier_frac then
          { success := false, homography := identity3
            method := "identity_fallback"
            matches_total := o.knn_matches.length, matches_used := good
            inlier_frac := ratio, reprojection_error_px := o.reproj_error
            reason := some "low_inlier_ratio" }
        else
          { success := true, homography := hmat, method := "orb_homography"
            matches_total := o.knn_matches.length, matches_used := good
            inlier_frac := ratio, reprojection_error_px := o.reproj_error
            reason := none }

/-- Embeds `register._AxisFrame`: detected axis origin, unit directions and
spans (produced by the Hough/fitLine detection, supplied as an oracle). -/
structure AxisFrame where
  origin : Point
  u_h : Point
  u_v : Point
  span_h : ℚ
  span_v : ℚ

/-- Column-stacked 2×2 basis `[u_h * span_h | u_v * span_v]` as
`(a, b; c, d)`. -/
def axisBasis (f : AxisFrame) : ℚ × ℚ × ℚ × ℚ :=
  (f.u_h.1 * f.span_h, f.u_v.1 * f.span_v,
   f.u_h.2 * f.span_h, f.u_v.2 * f.span_v)

/-- Embeds `register.estimate_homography_axes` over the detection oracle:
basis construction, determinant degeneracy check (`|det| < 1e-6`), the
linear solve `dst_basis @ inv(src_basis)`, translation, and assembly of the
affine homography. -/
def estimate_homography_axes
    (template_frame test_frame : Option AxisFrame) : RegistrationResult :=
  match template_frame, test_frame with
  | some tf, some sf =>
    let sa := (axisBasis sf).1
    let sb := (axisBasis sf).2.1
    let sc := (axisBasis sf).2.2.1
    let sd := (axisBasis sf).2.2.2
    let da := (axisBasis tf).1
    let db := (axisBasis tf).2.1
    let dc := (axisBasis tf).2.2.1
    let dd := (axisBasis tf).2.2.2
    let det := sa * sd - sb * sc
    if |det| < 1 / 10 ^ 6 then
      { success := false, homography := identity3
        method := "identity_fallback", matches_total := 0, matches_used := 0
        inlier_frac := 0, reprojection_error_px := none
        reason := some "axis_singular_basis" }
    else
      let ia := sd / det
      let ib := -sb / det
      let ic := -sc / det
      let id' := sa / det
      let la := da * ia + db * ic
      let lb := da * ib + db * id'
      let lc := dc * ia + dd * ic
      let ld := dc * ib + dd * id'
      let tx := tf.origin.1 - (la * sf.origin.1 + lb * sf.origin.2)
      let ty := tf.origin.2 - (lc * sf.origin.1 + ld * sf.origin.2)
      { success := true
        homography := fun i j =>
          if i = 0 then (if j = 0 then la else if j = 1 then lb else tx)
          else if i = 1 then (if j = 0 then lc else if j = 1 then ld else ty)
          else (if j = 2 then 1 else 0)
        method := "axes_fallback", matches_total := 0, matches_used := 0
        inlier_frac := 1, reprojection_error_px := none, reason := none }
  | _, _ =>
    { success := false, homography := identity3, method := "identity_fallback"
      matches_total := 0, matches_used := 0, inlier_frac := 0
      reprojection_error_px := none, reason := some "axis_detection_failed" }

/-- Embeds `register._ecc_motion_mode`: normalize the configured motion name;
anything unrecognized falls back to affine. -/
def ecc_motion_mode (name : String) : String :=
  let normalized := name.trim.toLower
  if normalized = "translation" then "translation"
  else if normalized = "euclidean" then "euclidean"
  else if normalized = "homography" then "homography"
  else "affine"

/-- Oracle outcome of `cv2.findTransformECC`: `none` models the `cv2.error`
path; otherwise the correlation coefficient and the estimated warp (for
non-homography motion modes the source uses only the top two rows and
appends `[0, 0, 1]`). -/
structure EccOracle where
  template_shape : ℕ × ℕ
  test_shape : ℕ × ℕ
  outcome : Option (ℚ × Mat3)

/-- Matrix product of two 3×3 matrices. -/
def mat3Mul (a b : Mat3) : Mat3 :=
  fun i j => a i 0 * b 0 j + a i 1 * b 1 j + a i 2 * b 2 j

/-- Embeds `register.estimate_homography_ecc` over the ECC oracle: resize
scale factors from the image shapes, the `cv2.error` fallback, bottom-row
completion for affine warps, and re-composition with the resize scale. -/
def estimate_homography_ecc (cfg : RegistrationConfig) (o : EccOracle) :
    RegistrationResult :=
  let sx : ℚ := (o.template_shape.2 : ℚ) / (o.test_shape.2 : ℚ)
  let sy : ℚ := (o.template_shape.1 : ℚ) / (o.test_shape.1 : ℚ)
  let motion := ecc_motion_mode cfg.ecc_motion
  match o.outcome with
  | none =>
    { success := false, homography := identity3, method := "identity_fallback"
      matches_total := 0, matches_used := 0, inlier_frac := 0
      reprojection_error_px := none, reason := some "ecc_failed" }
  | some (cc, warp) =>
    let h_ecc : Mat3 :=
      if motion = "homography" then warp
      else fun i j =>
        if i = 2 then (if j = 2 then 1 else 0) else warp i j
    let scaleM : Mat3 := fun i j =>
      if i = 0 ∧ j = 0 then sx
      else if i = 1 ∧ j = 1 then sy
      else if i = 2 ∧ j = 2 then 1 else 0
    { success := true, homography := mat3Mul h_ecc scaleM
      method := "ecc_fallback", matches_total := 0, matches_used := 0
      inlier_frac := cc, reprojection_error_px := none, reason := none }

/-! ## pipeline_service.py — registration selector -/

/-- One row of the selector's per-candidate debug output. -/
structure SelectionDebugRow where
  method : String
  success : Bool
  reason : Option String
  matches_total : ℕ
  matches_used : ℕ
  inlier_frac : ℚ
  reprojection_error_px : Option ℚ
  selection_mad_px : Option ℚ
  deriving DecidableEq

/-- Debug row for one candidate (`debug_rows.append(...)` in the selector). -/
def debugRowOf (madPx : Mat3 → ℚ) (reg : RegistrationResult) :
    SelectionDebugRow :=
  { method := reg.method, success := reg.success, reason := reg.reason
    matches_total := reg.matches_total, matches_used := reg.matches_used
    inlier_frac := reg.inlier_frac
    reprojection_error_px := reg.reprojection_error_px
    selection_mad_px := if reg.success then some (madPx reg.homography)
      else none }

/-- The selector's scan over the candidate list, tracking the best successful
candidate and its MAD (`best_candidate` / `best_mad`, updated when
`best_mad is None or mad_px < best_mad`). -/
def pickLoop (madPx : Mat3 → ℚ) :
    List RegistrationResult → Option (RegistrationResult × ℚ) →
    Option (RegistrationResult × ℚ)
  | [], best => best
  | reg :: rest, best =>
    if reg.success then
      let m := madPx reg.homography
      match best with
      | none => pickLoop madPx rest (some (reg, m))
      | some (b, bm) =>
        if m < bm then pickLoop madPx rest (some (reg, m))
        else pickLoop madPx rest (some (b, bm))
    else pickLoop madPx rest best

/-- Embeds `pipeline_service._pick_best_registration_for_contour`. The
per-candidate score `madPx` abstracts `_registration_mad_px` (warp by the
candidate homography, arc-length resample, nearest-neighbour distances,
mean), whose value is an irrational Euclidean quantity; the selection logic
is embedded for an arbitrary score, keyed on the candidate's homography
exactly as in the source. Raises (`IndexError`) on an empty candidate
list. -/
def pick_best_registration_for_contour (madPx : Mat3 → ℚ)
    (candidates : List RegistrationResult) :
    Except String (RegistrationResult × Option ℚ × List SelectionDebugRow) :=
  let rows := candidates.map (debugRowOf madPx)
  match pickLoop madPx candidates none with
  | some (best, bestMad) => .ok (best, some bestMad, rows)
  | none =>
    match candidates with
    | [] => .error "list index out of range"
    | c :: _ => .ok (c, none, rows)

/-- A successful ORB-style candidate used as a concrete selector input. -/
def candA : RegistrationResult :=
  { success := true, homography := fun _ _ => 5
    method := "orb_homography", matches_total := 9, matches_used := 4
    inlier_frac := 1, reprojection_error_px := none, reason := none }

/-- A successful axes-style candidate with a lower selection score. -/
def candB : RegistrationResult :=
  { success := true, homography := fun _ _ => 2
    method := "axes_fallback", matches_total := 0, matches_used := 0
    inlier_frac := 1, reprojection_error_px := none, reason := none }

/-- A failed candidate used as a concrete selector input. -/
def candFail : RegistrationResult :=
  { success := false, homography := identity3
    method := "identity_fallback", matches_total := 0, matches_used := 0
    inlier_frac := 0, reprojection_error_px := none
    reason := some "ecc_failed" }

/-! ## tau.py — labeled tau calibration

The report files are JSON documents read from disk; the embedding starts
from the per-report `mad/scale` ratio values that
`_prepare_labeled_ratio_values` extracts (path bookkeeping, unit selection
and file parsing are I/O, outside the algorithmic core; the `good_paths` /
`bad_paths` / `units` result fields are omitted for the same reason). -/

/-- One evaluation point of the tau sweep, from `tau.TauCurvePoint`. -/
structure TauCurvePoint where
  tau : ℚ
  threshold_frac : ℚ
  balanced_accuracy : ℚ
  tpr : ℚ
  tnr : ℚ
  mean_ipn_good : ℚ
  mean_ipn_bad : ℚ
  mean_ipn_gap : ℚ
  tp : ℕ
  fn : ℕ
  tn : ℕ
  fp : ℕ
  deriving DecidableEq

/-- The tau-vs-score curve, from `tau.TauCurve` (units and report counts of
the source are path bookkeeping; the point list is the algorithmic
content). -/
structure TauCurve where
  accept_ipn : ℚ
  tau_min : ℚ
  tau_max : ℚ
  good_reports_used : ℕ
  bad_reports_used : ℕ
  points : List TauCurvePoint
  deriving DecidableEq

/-- Result of the labeled calibration, from `tau.TauClassCalibrationResult`
(the variant in `tau.py`; path and unit fields omitted as I/O). -/
structure TauClassCalibrationResult where
  tau : ℚ
  good_reports_used : ℕ
  bad_reports_used : ℕ
  accept_ipn : ℚ
  tau_min : ℚ
  tau_max : ℚ
  objective : String
  balanced_accuracy : ℚ
  tpr : ℚ
  tnr : ℚ
  tp : ℕ
  fn : ℕ
  tn : ℕ
  fp : ℕ
  deriving DecidableEq

/-- Confusion-matrix counts and rates of the threshold classifier
`ratio <= tau * (1 - accept_ipn/100)`, from `tau._evaluate_tau_classifier`. -/
structure ClassifierScore where
  tp : ℕ
  fn : ℕ
  tn : ℕ
  fp : ℕ
  tpr : ℚ
  tnr : ℚ
  balanced_accuracy : ℚ
  deriving DecidableEq

/-- Embeds `tau._evaluate_tau_classifier` over the good/bad ratio values. -/
def evaluate_tau_classifier (good_values bad_values : List ℚ)
    (tau accept_ipn : ℚ) : ClassifierScore :=
  let factor := 1 - accept_ipn / 100
  let threshold := tau * factor
  let tp := good_values.countP (fun r => decide (r ≤ threshold))
  let fn := good_values.length - tp
  let tn := bad_values.countP (fun r => decide (threshold < r))
  let fp := bad_values.length - tn
  let tpr := if good_values.length = 0 then 0
    else (tp : ℚ) / good_values.length
  let tnr := if bad_values.length = 0 then 0
    else (tn : ℚ) / bad_values.length
  { tp := tp, fn := fn, tn := tn, fp := fp, tpr := tpr, tnr := tnr
    balanced_accuracy := 1 / 2 * (tpr + tnr) }

/-- Embeds `tau._ipn_from_ratio`: the IPN score of one `mad/scale` ratio at
tolerance factor `tau`, clamped to `[0, 100]`. -/
def ipn_from_value (r tau : ℚ) : ℚ :=
  if tau ≤ 0 then 0
  else
    let raw := 100 * (1 - r / tau)
    if raw < 0 then 0 else if raw > 100 then 100 else raw

/-- Embeds `tau._mean_ipn_from_ratios`. -/
def mean_ipn_from_values (values : List ℚ) (tau : ℚ) : ℚ :=
  if values.length = 0 then 0
  else (values.map (fun r => ipn_from_value r tau)).sum / values.length

/-- Clamp a boundary value into `[tau_min, tau_max]`
(`min(tau_max, max(tau_min, v))`). -/
def clampTau (tau_min tau_max v : ℚ) : ℚ :=
  min tau_max (max tau_min v)

/-- One step of the order-preserving duplicate removal of
`_midpoint_candidates`: keep `v` unless it is within `1e-12` of an already
kept value. -/
def uniqTolStep (uniq : List ℚ) (v : ℚ) : List ℚ :=
  if uniq.any (fun u => decide (|v - u| ≤ 1 / 10 ^ 12)) then uniq
  else uniq ++ [v]

/-- Keep each value whose distance to every previously kept value exceeds
`1e-12` (the order-preserving duplicate removal of `_midpoint_candidates`). -/
def uniqTol (l : List ℚ) : List ℚ :=
  l.foldl uniqTolStep []

/-- Adjacent pairs `zip(vals[:-1], vals[1:])`. -/
def adjPairs (l : List ℚ) : List (ℚ × ℚ) :=
  l.zip l.tail

/-- The candidate construction of `_midpoint_candidates` on the non-empty
sorted value list `v :: vs`: the two extremes (`vals[0]`, `vals[-1]`),
then each adjacent midpoint together with its endpoints, with
near-duplicates removed. -/
def midpoint_candidates_core (v : ℚ) (vs : List ℚ) : List ℚ :=
  uniqTol ([v, (v :: vs).getLast (by simp)] ++
    (adjPairs (v :: vs)).flatMap (fun lr => [(lr.1 + lr.2) / 2, lr.1, lr.2]))

/-- Embeds `tau._midpoint_candidates`: clamp the boundary values, sort and
deduplicate them, then take the two extremes, each boundary value and each
adjacent midpoint, removing near-duplicates (every rational is finite, so
the `np_isfinite` filter of the source keeps everything). -/
def midpoint_candidates (boundaries : List ℚ) (tau_min tau_max : ℚ) :
    List ℚ :=
  match sortQ (boundaries.map (clampTau tau_min tau_max)).dedup with
  | [] => []
  | v :: vs => midpoint_candidates_core v vs

/-- Python's built-in `round` on a rational (round half to even), as used in
`int(round(x))` (the truncation is the identity on the integral rounded
value). -/
def pyRound (x : ℚ) : ℤ :=
  let f := Int.floor x
  let r := x - f
  if r < 1 / 2 then f
  else if 1 / 2 < r then f + 1
  else if Even f then f else f + 1

/-- The rounded evenly spaced index of step `i` of `np_linspace_indices`. -/
def linspaceIdx (n k i : ℕ) : ℕ :=
  (pyRound ((i : ℚ) * ((n : ℚ) - 1) / ((k : ℚ) - 1))).toNat

/-- One step of `tau.np_linspace_indices`: round the evenly spaced rational
index and append it unless it repeats the previous index. -/
def linspaceStep (n k : ℕ) (out : List ℕ) (i : ℕ) : List ℕ :=
  if out.getLast? = some (linspaceIdx n k i) then out
  else out ++ [linspaceIdx n k i]

/-- Embeds `tau.np_linspace_indices`: evenly spaced index selection with
Python's `int(round(·))` rounding (half to even) and consecutive-duplicate
removal. -/
def np_linspace_indices (n k : ℕ) : List ℕ :=
  if k ≤ 1 then [0]
  else if n ≤ 1 then [0]
  else (List.range k).foldl (linspaceStep n k) []

/-- Embeds `tau._downsample_sorted_values`. -/
def downsample_sorted_values (values : List ℚ) (max_points : ℕ) : List ℚ :=
  if values.length ≤ max_points then values
  else if max_points ≤ 1 then [values.headD 0]
  else (np_linspace_indices values.length max_points).map
    (fun i => values.getD i 0)

/-- The sorted, exactly-deduplicated candidate list of the labeled tau sweep
before downsampling (`sorted(set(candidates))` over the midpoint candidates,
with the `[tau_min, tau_max]` fallback for an empty list). -/
def full_tau_candidates (good_values bad_values : List ℚ)
    (accept_ipn tau_min tau_max : ℚ) : List ℚ :=
  let factor := 1 - accept_ipn / 100
  let boundaries := [tau_min, tau_max] ++
    (good_values ++ bad_values).map (fun r => r / factor)
  let candidates :=
    sortQ (midpoint_candidates boundaries tau_min tau_max).dedup
  if candidates.isEmpty then [tau_min, tau_max] else candidates

/-- The curve point evaluated at one candidate tau. -/
def tauPointAt (good_values bad_values : List ℚ) (accept_ipn tau : ℚ) :
    TauCurvePoint :=
  let score := evaluate_tau_classifier good_values bad_values tau accept_ipn
  let mig := mean_ipn_from_values good_values tau
  let mib := mean_ipn_from_values bad_values tau
  { tau := tau, threshold_frac := (1 - accept_ipn / 100) * tau
    balanced_accuracy := score.balanced_accuracy
    tpr := score.tpr, tnr := score.tnr
    mean_ipn_good := mig, mean_ipn_bad := mib, mean_ipn_gap := mig - mib
    tp := score.tp, fn := score.fn, tn := score.tn, fp := score.fp }

/-- Embeds `tau.build_labeled_tau_curve` over the extracted ratio values:
input validation, critical-value candidate construction, downsampling to
`max_points` (default 400), and per-candidate evaluation. The two source
checks on empty path lists and empty extracted-value lists collapse to one
nonemptiness check each, because the embedding starts from the extracted
values. -/
def build_labeled_tau_curve (good_values bad_values : List ℚ)
    (accept_ipn : ℚ := 70) (tau_min : ℚ := 1 / 200) (tau_max : ℚ := 1 / 5)
    (max_points : ℕ := 400) : Except String TauCurve :=
  if ¬(0 < accept_ipn ∧ accept_ipn < 100) then
    .error "accept_ipn must be between 0 and 100"
  else if tau_min ≤ 0 then .error "tau_min must be > 0"
  else if tau_max ≤ tau_min then
    .error "tau_max must be greater than tau_min"
  else if max_points = 0 then .error "max_points must be > 0"
  else if good_values.isEmpty ∨ bad_values.isEmpty then
    .error "No valid reports available for labeled calibration"
  else
    let candidates := downsample_sorted_values
      (full_tau_candidates good_values bad_values accept_ipn tau_min tau_max)
      max_points
    .ok
      { accept_ipn := accept_ipn, tau_min := tau_min, tau_max := tau_max
        good_reports_used := good_values.length
        bad_reports_used := bad_values.length
        points := candidates.map
          (tauPointAt good_values bad_values accept_ipn) }

/-- The selection key `(point.balanced_accuracy, -point.tau)` of the labeled
calibration. -/
def tauSelKey (p : TauCurvePoint) : ℚ × ℚ :=
  (p.balanced_accuracy, -p.tau)

/-- Strict lexicographic comparison of selection keys (`key > best["key"]`
on Python tuples). -/
def keyGT (a b : ℚ × ℚ) : Bool :=
  decide (b.1 < a.1) || (decide (a.1 = b.1) && decide (b.2 < a.2))

/-- The selection scan shared by the labeled calibration variants: keep the
first point that compares strictly better (`best is None or key >
best["key"]`) than the best so far. -/
def scanBest (better : TauCurvePoint → TauCurvePoint → Bool) :
    List TauCurvePoint → Option TauCurvePoint → Option TauCurvePoint
  | [], best => best
  | p :: ps, best =>
    match best with
    | none => scanBest better ps (some p)
    | some b =>
      if better p b then scanBest better ps (some p)
      else scanBest better ps (some b)

/-- Strict comparison of two curve points under the
`(balanced_accuracy, -tau)` selection key. -/
def pointGT (p b : TauCurvePoint) : Bool :=
  keyGT (tauSelKey p) (tauSelKey b)

/-- The selection scan of `calibrate_tau_from_labeled_reports`. -/
def bestPoint (points : List TauCurvePoint)
    (init : Option TauCurvePoint) : Option TauCurvePoint :=
  scanBest pointGT points init

/-- Embeds `tau.calibrate_tau_from_labeled_reports` (the variant present in
`tau.py`, without constraint parameters) over the extracted ratio values.
The internal curve is built with the default `max_points = 400`, so the
selection scan runs over the downsampled candidate list. -/
def calibrate_tau_from_labeled_reports (good_values bad_values : List ℚ)
    (accept_ipn : ℚ := 70) (tau_min : ℚ := 1 / 200)
    (tau_max : ℚ := 1 / 5) : Except String TauClassCalibrationResult :=
  if ¬(0 < accept_ipn ∧ accept_ipn < 100) then
    .error "accept_ipn must be between 0 and 100"
  else if tau_min ≤ 0 then .error "tau_min must be > 0"
  else if tau_max ≤ tau_min then
    .error "tau_max must be greater than tau_min"
  else if good_values.isEmpty ∨ bad_values.isEmpty then
    .error "Both good and bad report sets are required"
  else
    match build_labeled_tau_curve good_values bad_values accept_ipn
      tau_min tau_max with
    | .error e => .error e
    | .ok curve =>
      match bestPoint curve.points none with
      | none => .error "No tau candidates available for labeled calibration"
      | some point =>
        .ok
          { tau := point.tau
            good_reports_used := good_values.length
            bad_reports_used := bad_values.length
            accept_ipn := accept_ipn, tau_min := tau_min, tau_max := tau_max
            objective := "balanced_accuracy"
            balanced_accuracy := point.balanced_accuracy
            tpr := point.tpr, tnr := point.tnr
            tp := point.tp, fn := point.fn, tn := point.tn, fp := point.fp }

/-- The selection the spec describes for the labeled sweep: the
`(balanced_accuracy, -tau)` optimum taken over the full, un-downsampled
candidate set (spec: "the unconstrained/constrained search happens over the
full candidate set before downsampling for export only"). -/
def spec_full_sweep_best (good_values bad_values : List ℚ)
    (accept_ipn tau_min tau_max : ℚ) : Option TauCurvePoint :=
  bestPoint
    ((full_tau_candidates good_values bad_values accept_ipn tau_min
      tau_max).map (tauPointAt good_values bad_values accept_ipn)) none

/-! ## The constrained labeled calibration (final variant)

The repository's callers (`cli.py`, `tau_service.py`) and its test suite
invoke `calibrate_tau_from_labeled_reports` with an `objective` and the
constraint parameters `max_mean_ipn_bad` / `min_mean_ipn_gap` / `min_tpr` /
`min_tnr`, and read `constraints_satisfied`, `feasible_points` and
`fallback_reason` from the result; the `tau.py` present in the sources is
an earlier revision without any of this. The constrained variant is
modelled from the spec below. -/

/-- Objective names of the constrained labeled calibration: the base
objective `balanced_accuracy`, optionally ordered with a gap-maximization
tie-break in either priority order (spec §4.7). -/
inductive TauObjective where
  | balanced_accuracy : TauObjective
  | balanced_accuracy_then_gap : TauObjective
  | gap_then_balanced_accuracy : TauObjective
  deriving DecidableEq

/-- The optional feasibility constraints of the constrained labeled
calibration. -/
structure TauConstraints where
  max_mean_ipn_bad : Option ℚ
  min_mean_ipn_gap : Option ℚ
  min_tpr : Option ℚ
  min_tnr : Option ℚ
  deriving DecidableEq

/-- A curve point satisfies every active constraint: bad-class mean IPN at
most the cap, class gap, TPR and TNR at least their floors. -/
def pointFeasible (c : TauConstraints) (p : TauCurvePoint) : Bool :=
  (match c.max_mean_ipn_bad with
    | none => true
    | some v => decide (p.mean_ipn_bad ≤ v)) &&
  (match c.min_mean_ipn_gap with
    | none => true
    | some v => decide (v ≤ p.mean_ipn_gap)) &&
  (match c.min_tpr with
    | none => true
    | some v => decide (v ≤ p.tpr)) &&
  (match c.min_tnr with
    | none => true
    | some v => decide (v ≤ p.tnr))

/-- Lexicographic selection key of each objective; every objective ranks by
its primary criteria and prefers lower tau on exact ties. -/
def objectiveKey (obj : TauObjective) (p : TauCurvePoint) : ℚ × ℚ × ℚ :=
  match obj with
  | .balanced_accuracy => (p.balanced_accuracy, -p.tau, 0)
  | .balanced_accuracy_then_gap =>
    (p.balanced_accuracy, p.mean_ipn_gap, -p.tau)
  | .gap_then_balanced_accuracy =>
    (p.mean_ipn_gap, p.balanced_accuracy, -p.tau)

/-- Strict lexicographic comparison of triple keys. -/
def keyGT3 (a b : ℚ × ℚ × ℚ) : Bool :=
  decide (b.1 < a.1) ||
    (decide (a.1 = b.1) &&
      (decide (b.2.1 < a.2.1) ||
        (decide (a.2.1 = b.2.1) && decide (b.2.2 < a.2.2))))

/-- Strict comparison of two curve points under an objective's key. -/
def pointGT3 (obj : TauObjective) (p b : TauCurvePoint) : Bool :=
  keyGT3 (objectiveKey obj p) (objectiveKey obj b)

/-- The fixed fallback reason code recorded when no candidate satisfies the
active constraints (pinned by `test_labeled_calibration_constraint_fallback`
in the repository's test suite). -/
def fallbackReasonCode : String := "no_feasible_points_for_constraints"

/-- Result of the constrained labeled calibration (the final variant's
`TauClassCalibrationResult`, as read by `cli.py` / `tau_service.py`). -/
structure TauClassCalibrationConstrainedResult where
  tau : ℚ
  good_reports_used : ℕ
  bad_reports_used : ℕ
  accept_ipn : ℚ
  tau_min : ℚ
  tau_max : ℚ
  objective : TauObjective
  constraints : TauConstraints
  constraints_satisfied : Bool
  feasible_points : ℕ
  fallback_reason : Option String
  balanced_accuracy : ℚ
  tpr : ℚ
  tnr : ℚ
  mean_ipn_good : ℚ
  mean_ipn_bad : ℚ
  mean_ipn_gap : ℚ
  tp : ℕ
  fn : ℕ
  tn : ℕ
  fp : ℕ
  deriving DecidableEq

/-- Builds the constrained result record from the selected point. -/
def constrainedResultOf (good_values bad_values : List ℚ)
    (accept_ipn tau_min tau_max : ℚ) (obj : TauObjective)
    (c : TauConstraints) (sat : Bool) (feas : ℕ) (reason : Option String)
    (p : TauCurvePoint) : TauClassCalibrationConstrainedResult :=
  { tau := p.tau
    good_reports_used := good_values.length
    bad_reports_used := bad_values.length
    accept_ipn := accept_ipn, tau_min := tau_min, tau_max := tau_max
    objective := obj, constraints := c
    constraints_satisfied := sat, feasible_points := feas
    fallback_reason := reason
    balanced_accuracy := p.balanced_accuracy, tpr := p.tpr, tnr := p.tnr
    mean_ipn_good := p.mean_ipn_good, mean_ipn_bad := p.mean_ipn_bad
    mean_ipn_gap := p.mean_ipn_gap
    tp := p.tp, fn := p.fn, tn := p.tn, fp := p.fp }

/-- Modelled from the spec: the final, constrained variant of
`calibrate_tau_from_labeled_reports`, which is missing from the repository
sources (only its callers in `cli.py` / `tau_service.py` and its tests are
present). Per spec §4.7 it "selects the best tau by a base objective
(`balanced_accuracy`, optionally ordered with a gap-maximization tie-break
in either priority order) subject to optional feasibility constraints
(`max_mean_ipn_bad`, `min_mean_ipn_gap`, `min_tpr`, `min_tnr`). If no
candidate tau satisfies all active constraints, the engine falls back to
the best unconstrained point and records `constraints_satisfied=false` with
a fixed fallback reason code, rather than raising." -/
def calibrate_tau_labeled_constrained (good_values bad_values : List ℚ)
    (accept_ipn tau_min tau_max : ℚ) (obj : TauObjective)
    (c : TauConstraints) :
    Except String TauClassCalibrationConstrainedResult :=
  if ¬(0 < accept_ipn ∧ accept_ipn < 100) then
    .error "accept_ipn must be between 0 and 100"
  else if tau_min ≤ 0 then .error "tau_min must be > 0"
  else if tau_max ≤ tau_min then
    .error "tau_max must be greater than tau_min"
  else if good_values.isEmpty ∨ bad_values.isEmpty then
    .error "Both good and bad report sets are required"
  else
    match build_labeled_tau_curve good_values bad_values accept_ipn
      tau_min tau_max with
    | .error e => .error e
    | .ok curve =>
      let feasible := curve.points.filter (pointFeasible c)
      if feasible.isEmpty then
        match scanBest (pointGT3 obj) curve.points none with
        | none =>
          .error "No tau candidates available for labeled calibration"
        | some p =>
          .ok (constrainedResultOf good_values bad_values accept_ipn
            tau_min tau_max obj c false 0 (some fallbackReasonCode) p)
      else
        match scanBest (pointGT3 obj) feasible none with
        | none =>
          .error "No tau candidates available for labeled calibration"
        | some p =>
          .ok (constrainedResultOf good_values bad_values accept_ipn
            tau_min tau_max obj c true feasible.length none p)

/-! ## Lemmas: the selection scan -/

theorem keyGT_eq_true_iff (a b : ℚ × ℚ) :
    keyGT a b = true ↔ b.1 < a.1 ∨ (a.1 = b.1 ∧ b.2 < a.2) := by
  simp [keyGT]

theorem keyGT_eq_false_iff (a b : ℚ × ℚ) :
    keyGT a b = false ↔ a.1 ≤ b.1 ∧ (a.1 = b.1 → a.2 ≤ b.2) := by
  rw [← Bool.not_eq_true, keyGT_eq_true_iff]
  push_neg
  exact Iff.rfl

theorem keyGT_irrefl (a : ℚ × ℚ) : keyGT a a = false := by
  rw [keyGT_eq_false_iff]
  exact ⟨le_refl _, fun _ => le_refl _⟩

theorem keyGT_trans {x y z : ℚ × ℚ} (h1 : keyGT x y = true)
    (h2 : keyGT y z = true) : keyGT x z = true := by
  rw [keyGT_eq_true_iff] at h1 h2 ⊢
  rcases h1 with h1 | ⟨he1, h1⟩ <;> rcases h2 with h2 | ⟨he2, h2⟩
  · exact Or.inl (lt_trans h2 h1)
  · exact Or.inl (he2 ▸ h1)
  · exact Or.inl (he1 ▸ h2)
  · exact Or.inr ⟨he1.trans he2, lt_trans h2 h1⟩

theorem keyGT_neg_trans {x y z : ℚ × ℚ} (h1 : keyGT x y = false)
    (h2 : keyGT y z = false) : keyGT x z = false := by
  rw [keyGT_eq_false_iff] at h1 h2 ⊢
  refine ⟨h1.1.trans h2.1, fun he => ?_⟩
  have hxy : x.1 = y.1 := le_antisymm h1.1 (he ▸ h2.1)
  exact (h1.2 hxy).trans (h2.2 (hxy ▸ he))

theorem keyGT3_eq_true_iff (a b : ℚ × ℚ × ℚ) :
    keyGT3 a b = true ↔ b.1 < a.1 ∨
      (a.1 = b.1 ∧ (b.2.1 < a.2.1 ∨ (a.2.1 = b.2.1 ∧ b.2.2 < a.2.2))) := by
  simp [keyGT3]

theorem keyGT3_irrefl (a : ℚ × ℚ × ℚ) : keyGT3 a a = false := by
  rw [← Bool.not_eq_true, keyGT3_eq_true_iff]
  push_neg
  exact ⟨le_refl _, fun _ => ⟨le_refl _, fun _ => le_refl _⟩⟩

theorem keyGT3_trans {x y z : ℚ × ℚ × ℚ} (h1 : keyGT3 x y = true)
    (h2 : keyGT3 y z = true) : keyGT3 x z = true := by
  rw [keyGT3_eq_true_iff] at h1 h2 ⊢
  rcases h1 with h1 | ⟨he1, h1⟩ <;> rcases h2 with h2 | ⟨he2, h2⟩
  · exact Or.inl (lt_trans h2 h1)
  · exact Or.inl (he2 ▸ h1)
  · exact Or.inl (he1 ▸ h2)
  · refine Or.inr ⟨he1.trans he2, ?_⟩
    rcases h1 with h1 | ⟨hf1, h1⟩ <;> rcases h2 with h2 | ⟨hf2, h2⟩
    · exact Or.inl (lt_trans h2 h1)
    · exact Or.inl (hf2 ▸ h1)
    · exact Or.inl (hf1 ▸ h2)
    · exact Or.inr ⟨hf1.trans hf2, lt_trans h2 h1⟩

theorem keyGT3_neg_trans {x y z : ℚ × ℚ × ℚ} (h1 : keyGT3 x y = false)
    (h2 : keyGT3 y z = false) : keyGT3 x z = false := by
  rw [← Bool.not_eq_true, keyGT3_eq_true_iff] at h1 h2 ⊢
  push_neg at h1 h2 ⊢
  obtain ⟨hxy1, hb1⟩ := h1
  obtain ⟨hyz1, hb2⟩ := h2
  refine ⟨hxy1.trans hyz1, fun he => ?_⟩
  have e1 : x.1 = y.1 := le_antisymm hxy1 (he ▸ hyz1)
  have e2 : y.1 = z.1 := e1 ▸ he
  obtain ⟨hxy2, hd1⟩ := hb1 e1
  obtain ⟨hyz2, hd2⟩ := hb2 e2
  refine ⟨hxy2.trans hyz2, fun he2 => ?_⟩
  have f1 : x.2.1 = y.2.1 := le_antisymm hxy2 (he2 ▸ hyz2)
  exact (hd1 f1).trans (hd2 (f1 ▸ he2))

theorem scanBest_some {better : TauCurvePoint → TauCurvePoint → Bool} :
    ∀ (ps : List TauCurvePoint) (b : TauCurvePoint),
      ∃ a, scanBest better ps (some b) = some a
  | [], b => ⟨b, rfl⟩
  | p :: ps, b => by
    simp only [scanBest]
    by_cases h : better p b
    · simpa [h] using scanBest_some ps p
    · simpa [h] using scanBest_some ps b

theorem scanBest_some_of_ne_nil
    {better : TauCurvePoint → TauCurvePoint → Bool}
    {ps : List TauCurvePoint} (h : ps ≠ []) :
    ∃ a, scanBest better ps none = some a := by
  cases ps with
  | nil => exact absurd rfl h
  | cons p ps => simpa [scanBest] using scanBest_some ps p

theorem scanBest_mem {better : TauCurvePoint → TauCurvePoint → Bool} :
    ∀ {ps : List TauCurvePoint} {b a : TauCurvePoint},
      scanBest better ps (some b) = some a → a = b ∨ a ∈ ps := by
  intro ps
  induction ps with
  | nil =>
    intro b a h
    simp only [scanBest, Option.some.injEq] at h
    exact Or.inl h.symm
  | cons p ps ih =>
    intro b a h
    simp only [scanBest] at h
    by_cases hb : better p b
    · rw [if_pos hb] at h
      rcases ih h with h' | h'
      · exact Or.inr (h' ▸ List.mem_cons_self p ps)
      · exact Or.inr (List.mem_cons_of_mem p h')
    · rw [if_neg hb] at h
      rcases ih h with h' | h'
      · exact Or.inl h'
      · exact Or.inr (List.mem_cons_of_mem p h')

theorem scanBest_mem_of_none {better : TauCurvePoint → TauCurvePoint → Bool}
    {ps : List TauCurvePoint} {a : TauCurvePoint}
    (h : scanBest better ps none = some a) : a ∈ ps := by
  cases ps with
  | nil => simp [scanBest] at h
  | cons p ps =>
    simp only [scanBest] at h
    rcases scanBest_mem h with h' | h'
    · exact h' ▸ List.mem_cons_self p ps
    · exact List.mem_cons_of_mem p h'

theorem scanBest_not_better {better : TauCurvePoint → TauCurvePoint → Bool}
    (htrans : ∀ x y z, better x y = true → better y z = true →
      better x z = true)
    (hneg : ∀ x y z, better x y = false → better y z = false →
      better x z = false)
    (hirr : ∀ x, better x x = false) :
    ∀ {ps : List TauCurvePoint} {b a : TauCurvePoint},
      scanBest better ps (some b) = some a →
      (∀ q ∈ ps, better q a = false) ∧ better b a = false := by
  intro ps
  induction ps with
  | nil =>
    intro b a h
    simp only [scanBest, Option.some.injEq] at h
    subst h
    exact ⟨by simp, hirr b⟩
  | cons p ps ih =>
    intro b a h
    simp only [scanBest] at h
    by_cases hb : better p b
    · rw [if_pos hb] at h
      obtain ⟨hall, hpa⟩ := ih h
      have hba : better b a = false := by
        by_contra hcon
        have := htrans p b a hb (Bool.of_not_eq_false hcon)
        rw [hpa] at this
        exact Bool.false_ne_true this
      refine ⟨fun q hq => ?_, hba⟩
      rcases List.mem_cons.mp hq with rfl | hq'
      · exact hpa
      · exact hall q hq'
    · rw [if_neg hb] at h
      obtain ⟨hall, hba⟩ := ih h
      have hpb : better p b = false := Bool.of_not_eq_true hb
      refine ⟨fun q hq => ?_, hba⟩
      rcases List.mem_cons.mp hq with rfl | hq'
      · exact hneg q b a hpb hba
      · exact hall q hq'

theorem scanBest_optimal {better : TauCurvePoint → TauCurvePoint → Bool}
    (htrans : ∀ x y z, better x y = true → better y z = true →
      better x z = true)
    (hneg : ∀ x y z, better x y = false → better y z = false →
      better x z = false)
    (hirr : ∀ x, better x x = false)
    {ps : List TauCurvePoint} {a : TauCurvePoint}
    (h : scanBest better ps none = some a) :
    a ∈ ps ∧ ∀ q ∈ ps, better q a = false := by
  refine ⟨scanBest_mem_of_none h, ?_⟩
  cases ps with
  | nil => simp [scanBest] at h
  | cons p ps =>
    simp only [scanBest] at h
    obtain ⟨hall, hpa⟩ := scanBest_not_better htrans hneg hirr h
    intro q hq
    rcases List.mem_cons.mp hq with rfl | hq'
    · exact hpa
    · exact hall q hq'

/-! ## Lemmas: the registration selector scan -/

theorem pickLoop_none {madPx : Mat3 → ℚ} :
    ∀ {cs : List RegistrationResult},
      (∀ c ∈ cs, c.success = false) → pickLoop madPx cs none = none := by
  intro cs
  induction cs with
  | nil => intro _; rfl
  | cons c cs ih =>
    intro h
    have hc : c.success = false := h c (List.mem_cons_self c cs)
    simp only [pickLoop, hc, Bool.false_eq_true, if_false]
    exact ih fun x hx => h x (List.mem_cons_of_mem c hx)

theorem pickLoop_some (madPx : Mat3 → ℚ) :
    ∀ (cs : List RegistrationResult) (b : RegistrationResult) (bm : ℚ),
      ∃ r rm, pickLoop madPx cs (some (b, bm)) = some (r, rm) := by
  intro cs
  induction cs with
  | nil => intro b bm; exact ⟨b, bm, rfl⟩
  | cons c cs ih =>
    intro b bm
    simp only [pickLoop]
    by_cases hc : c.success = true
    · rw [if_pos hc]
      by_cases hlt : madPx c.homography < bm
      · rw [if_pos hlt]; exact ih c (madPx c.homography)
      · rw [if_neg hlt]; exact ih b bm
    · rw [if_neg hc]; exact ih b bm

theorem pickLoop_some_invariant {madPx : Mat3 → ℚ} :
    ∀ {cs : List RegistrationResult} {b : RegistrationResult} {bm : ℚ}
      {r : RegistrationResult} {rm : ℚ},
      b.success = true → bm = madPx b.homography →
      pickLoop madPx cs (some (b, bm)) = some (r, rm) →
      r.success = true ∧ rm = madPx r.homography ∧ (r = b ∨ r ∈ cs) ∧
        rm ≤ bm ∧
        ∀ c ∈ cs, c.success = true → rm ≤ madPx c.homography := by
  intro cs
  induction cs with
  | nil =>
    intro b bm r rm hb hbm h
    simp only [pickLoop, Option.some.injEq, Prod.mk.injEq] at h
    obtain ⟨hrb, hrm⟩ := h
    subst hrb; subst hrm
    exact ⟨hb, hbm, Or.inl rfl, le_refl _, by simp⟩
  | cons c cs ih =>
    intro b bm r rm hb hbm h
    simp only [pickLoop] at h
    by_cases hc : c.success = true
    · rw [if_pos hc] at h
      by_cases hlt : madPx c.homography < bm
      · rw [if_pos hlt] at h
        obtain ⟨hr, hrm, hmem, hle, hall⟩ := ih hc rfl h
        refine ⟨hr, hrm, ?_, le_of_lt (lt_of_le_of_lt hle hlt), ?_⟩
        · rcases hmem with heq | hm
          · exact Or.inr (by rw [heq]; exact List.mem_cons_self c cs)
          · exact Or.inr (List.mem_cons_of_mem c hm)
        · intro d hd hds
          rcases List.mem_cons.mp hd with rfl | hd'
          · exact hle
          · exact hall d hd' hds
      · rw [if_neg hlt] at h
        obtain ⟨hr, hrm, hmem, hle, hall⟩ := ih hb hbm h
        refine ⟨hr, hrm, ?_, hle, ?_⟩
        · rcases hmem with rfl | hm
          · exact Or.inl rfl
          · exact Or.inr (List.mem_cons_of_mem c hm)
        · intro d hd hds
          rcases List.mem_cons.mp hd with rfl | hd'
          · exact hle.trans (le_of_not_lt hlt)
          · exact hall d hd' hds
    · rw [if_neg hc] at h
      obtain ⟨hr, hrm, hmem, hle, hall⟩ := ih hb hbm h
      refine ⟨hr, hrm, ?_, hle, ?_⟩
      · rcases hmem with rfl | hm
        · exact Or.inl rfl
        · exact Or.inr (List.mem_cons_of_mem c hm)
      · intro d hd hds
        rcases List.mem_cons.mp hd with rfl | hd'
        · exact absurd hds (by simpa using hc)
        · exact hall d hd' hds

theorem pickLoop_some_of_success {madPx : Mat3 → ℚ} :
    ∀ {cs : List RegistrationResult} {c0 : RegistrationResult},
      c0 ∈ cs → c0.success = true →
      ∃ r rm, pickLoop madPx cs none = some (r, rm) ∧ r.success = true ∧
        rm = madPx r.homography ∧ r ∈ cs ∧
        ∀ c ∈ cs, c.success = true → rm ≤ madPx c.homography := by
  intro cs
  induction cs with
  | nil => intro c0 h; simp at h
  | cons c cs ih =>
    intro c0 hmem hc0
    by_cases hc : c.success = true
    · obtain ⟨r, rm, hr⟩ := pickLoop_some madPx cs c (madPx c.homography)
      obtain ⟨hru, hrm, hrmem, hle, hall⟩ :=
        pickLoop_some_invariant hc rfl hr
      refine ⟨r, rm, ?_, hru, hrm, ?_, ?_⟩
      · simpa only [pickLoop, hc, if_true] using hr
      · rcases hrmem with heq | hm
        · rw [heq]; exact List.mem_cons_self c cs
        · exact List.mem_cons_of_mem c hm
      · intro d hd hds
        rcases List.mem_cons.mp hd with rfl | hd'
        · exact hle
        · exact hall d hd' hds
    · rcases List.mem_cons.mp hmem with rfl | hmem'
      · exact absurd hc0 hc
      · obtain ⟨r, rm, hr, hru, hrm, hrmem, hall⟩ := ih hmem' hc0
        have hcf : c.success = false := by simpa using hc
        refine ⟨r, rm, ?_, hru, hrm, List.mem_cons_of_mem c hrmem, ?_⟩
        · simpa only [pickLoop, hcf, Bool.false_eq_true, if_false] using hr
        · intro d hd hds
          rcases List.mem_cons.mp hd with rfl | hd'
          · exact absurd hds (by simpa using hc)
          · exact hall d hd' hds

/-! ## Lemmas: sorting, duplicate removal, downsampling -/

theorem sortQ_sorted (l : List ℚ) : (sortQ l).Sorted (· ≤ ·) :=
  List.sorted_insertionSort (· ≤ ·) l

theorem mem_sortQ {a : ℚ} {l : List ℚ} : a ∈ sortQ l ↔ a ∈ l :=
  List.mem_insertionSort (· ≤ ·)

theorem sortQ_ne_nil {l : List ℚ} (h : l ≠ []) : sortQ l ≠ [] := by
  intro hc
  cases l with
  | nil => exact h rfl
  | cons x xs =>
    have hx : x ∈ sortQ (x :: xs) := mem_sortQ.mpr (List.mem_cons_self x xs)
    rw [hc] at hx
    simp at hx

theorem le_sorted_getLast {l : List ℚ} (hs : l.Sorted (· ≤ ·)) (hne : l ≠ [])
    {x : ℚ} (hx : x ∈ l) : x ≤ l.getLast hne := by
  obtain ⟨i, hi⟩ := List.mem_iff_get.mp hx
  rw [List.getLast_eq_get]
  have hil : (i : ℕ) ≤ l.length - 1 := by
    have := i.isLt
    omega
  rw [← hi]
  exact hs.rel_get_of_le (by exact hil)

theorem sorted_getLast_eq {l : List ℚ} (hs : l.Sorted (· ≤ ·))
    (hne : l ≠ []) {m : ℚ} (hm : m ∈ l) (hmax : ∀ x ∈ l, x ≤ m) :
    l.getLast hne = m :=
  le_antisymm (hmax _ (List.getLast_mem hne)) (le_sorted_getLast hs hne hm)

theorem mem_uniqTolStep_acc {acc : List ℚ} {v a : ℚ} (h : a ∈ acc) :
    a ∈ uniqTolStep acc v := by
  unfold uniqTolStep
  split
  · exact h
  · exact List.mem_append_left _ h

theorem mem_uniqTolStep_elim {acc : List ℚ} {v a : ℚ}
    (h : a ∈ uniqTolStep acc v) : a ∈ acc ∨ a = v := by
  unfold uniqTolStep at h
  split at h
  · exact Or.inl h
  · rcases List.mem_append.mp h with h' | h'
    · exact Or.inl h'
    · simp at h'
      exact Or.inr h'

theorem mem_foldl_uniqTolStep_acc :
    ∀ (l acc : List ℚ) {a : ℚ}, a ∈ acc → a ∈ l.foldl uniqTolStep acc
  | [], _, _, h => h
  | v :: l, acc, a, h =>
    mem_foldl_uniqTolStep_acc l (uniqTolStep acc v) (mem_uniqTolStep_acc h)

theorem mem_foldl_uniqTolStep_elim :
    ∀ (l acc : List ℚ) {a : ℚ},
      a ∈ l.foldl uniqTolStep acc → a ∈ acc ∨ a ∈ l
  | [], _, _, h => Or.inl h
  | v :: l, acc, a, h => by
    rcases mem_foldl_uniqTolStep_elim l (uniqTolStep acc v) h with h' | h'
    · rcases mem_uniqTolStep_elim h' with h'' | h''
      · exact Or.inl h''
      · exact Or.inr (h'' ▸ List.mem_cons_self v l)
    · exact Or.inr (List.mem_cons_of_mem v h')

theorem mem_uniqTol {l : List ℚ} {a : ℚ} (h : a ∈ uniqTol l) : a ∈ l := by
  rcases mem_foldl_uniqTolStep_elim l [] h with h' | h'
  · simp at h'
  · exact h'

theorem uniqTol_keeps_first_two {x y : ℚ} {rest : List ℚ}
    (h : ¬ |y - x| ≤ 1 / 10 ^ 12) :
    x ∈ uniqTol (x :: y :: rest) ∧ y ∈ uniqTol (x :: y :: rest) := by
  have h1 : uniqTolStep [] x = [x] := by simp [uniqTolStep]
  have h2 : uniqTolStep [x] y = [x, y] := by
    simp only [uniqTolStep, List.any_cons, List.any_nil, Bool.or_false]
    rw [if_neg (by simpa using h)]
    rfl
  unfold uniqTol
  simp only [List.foldl_cons, h1, h2]
  exact ⟨mem_foldl_uniqTolStep_acc rest [x, y] (by simp),
    mem_foldl_uniqTolStep_acc rest [x, y] (by simp)⟩

theorem pyRound_natCast (m : ℕ) : pyRound ((m : ℕ) : ℚ) = m := by
  unfold pyRound
  have hf : Int.floor ((m : ℕ) : ℚ) = (m : ℤ) := by
    rw [Int.floor_natCast]
  rw [hf]
  simp

theorem mem_of_getLast?_eq_some {α : Type} {l : List α} {a : α}
    (h : l.getLast? = some a) : a ∈ l := by
  have hmem : a ∈ l.getLast? := Option.mem_def.mpr h
  obtain ⟨hne, heq⟩ := List.mem_getLast?_eq_getLast hmem
  rw [heq]
  exact List.getLast_mem hne

theorem mem_linspaceStep (n k : ℕ) (out : List ℕ) (i : ℕ) :
    linspaceIdx n k i ∈ linspaceStep n k out i := by
  unfold linspaceStep
  split
  · next hl => exact mem_of_getLast?_eq_some hl
  · exact List.mem_append_right _ (by simp)

theorem mem_linspaceStep_acc {n k : ℕ} {out : List ℕ} {i a : ℕ}
    (h : a ∈ out) : a ∈ linspaceStep n k out i := by
  unfold linspaceStep
  split
  · exact h
  · exact List.mem_append_left _ h

theorem linspaceIdx_last {n k : ℕ} (hn : 1 ≤ n) (hk : 2 ≤ k) :
    linspaceIdx n k (k - 1) = n - 1 := by
  unfold linspaceIdx
  have hcast : ((k - 1 : ℕ) : ℚ) = (k : ℚ) - 1 := by
    rw [Nat.cast_sub (by omega : 1 ≤ k)]
    simp
  have hne : ((k : ℚ) - 1) ≠ 0 := by
    have h2 : (2 : ℚ) ≤ (k : ℚ) := by exact_mod_cast hk
    intro hc
    nlinarith
  have hval : ((k - 1 : ℕ) : ℚ) * ((n : ℚ) - 1) / ((k : ℚ) - 1) =
      ((n - 1 : ℕ) : ℚ) := by
    rw [hcast, Nat.cast_sub hn]
    field_simp
  rw [hval, pyRound_natCast]
  simp

theorem linspaceStep_ne_nil (n k : ℕ) (out : List ℕ) (i : ℕ) :
    linspaceStep n k out i ≠ [] := by
  unfold linspaceStep
  split
  · next hl =>
    intro hc
    rw [hc] at hl
    simp at hl
  · simp

theorem foldl_linspaceStep_ne_nil (n k : ℕ) :
    ∀ (l : List ℕ) (acc : List ℕ), acc ≠ [] →
      l.foldl (linspaceStep n k) acc ≠ []
  | [], _, h => h
  | i :: l, acc, _ =>
    foldl_linspaceStep_ne_nil n k l (linspaceStep n k acc i)
      (linspaceStep_ne_nil n k acc i)

theorem np_linspace_indices_ne_nil (n k : ℕ) :
    np_linspace_indices n k ≠ [] := by
  unfold np_linspace_indices
  split
  · simp
  · split
    · simp
    · next hk _ =>
      have hk2 : 2 ≤ k := by omega
      have : ∃ i l, List.range k = i :: l := by
        cases hr : List.range k with
        | nil =>
          have := List.length_range k
          rw [hr] at this
          simp at this
          omega
        | cons i l => exact ⟨i, l, rfl⟩
      obtain ⟨i, l, hr⟩ := this
      rw [hr, List.foldl_cons]
      exact foldl_linspaceStep_ne_nil n k l _ (linspaceStep_ne_nil n k [] i)

theorem mem_linspace_last {n k : ℕ} (hn : 1 ≤ n) (hk : 2 ≤ k) :
    (n - 1) ∈ np_linspace_indices n k := by
  unfold np_linspace_indices
  rw [if_neg (by omega)]
  by_cases hn1 : n ≤ 1
  · rw [if_pos hn1]
    have : n = 1 := le_antisymm hn1 hn
    simp [this]
  · rw [if_neg hn1]
    have hrange : List.range k = List.range (k - 1) ++ [k - 1] := by
      conv_lhs => rw [show k = (k - 1) + 1 by omega]
      exact List.range_succ (k - 1)
    rw [hrange, List.foldl_append, List.foldl_cons, List.foldl_nil]
    have := mem_linspaceStep n k
      (List.foldl (linspaceStep n k) [] (List.range (k - 1))) (k - 1)
    rw [linspaceIdx_last hn hk] at this
    exact this

theorem downsample_ne_nil {l : List ℚ} (h : l ≠ []) (m : ℕ) :
    downsample_sorted_values l m ≠ [] := by
  unfold downsample_sorted_values
  split
  · exact h
  · split
    · simp
    · intro hc
      have := np_linspace_indices_ne_nil l.length m
      rw [List.map_eq_nil] at hc
      exact this hc

theorem getD_length_sub_one {l : List ℚ} (hne : l ≠ []) :
    l.getD (l.length - 1) 0 = l.getLast hne := by
  have hlen : l.length - 1 < l.length := by
    cases l with
    | nil => exact absurd rfl hne
    | cons x xs => simp
  rw [List.getD_eq_get _ _ hlen, List.getLast_eq_get]

theorem downsample_getLast_mem {l : List ℚ} (hne : l ≠ []) {m : ℕ}
    (hm : 2 ≤ m) : l.getLast hne ∈ downsample_sorted_values l m := by
  unfold downsample_sorted_values
  split
  · exact List.getLast_mem hne
  · rw [if_neg (by omega)]
    have hlen : 1 ≤ l.length := by
      cases l with
      | nil => exact absurd rfl hne
      | cons x xs => simp
    have hmem := mem_linspace_last hlen hm
    exact List.mem_map.mpr ⟨l.length - 1, hmem, getD_length_sub_one hne⟩

/-! ## Lemmas: the threshold classifier -/

theorem tpr_le_one (g b : List ℚ) (tau a : ℚ) :
    (evaluate_tau_classifier g b tau a).tpr ≤ 1 := by
  unfold evaluate_tau_classifier
  dsimp only
  split
  · exact zero_le_one
  · next h =>
    rw [div_le_one (by exact_mod_cast Nat.pos_of_ne_zero h)]
    exact_mod_cast List.countP_le_length _

theorem tnr_le_one (g b : List ℚ) (tau a : ℚ) :
    (evaluate_tau_classifier g b tau a).tnr ≤ 1 := by
  unfold evaluate_tau_classifier
  dsimp only
  split
  · exact zero_le_one
  · next h =>
    rw [div_le_one (by exact_mod_cast Nat.pos_of_ne_zero h)]
    exact_mod_cast List.countP_le_length _

theorem balanced_accuracy_le_one (g b : List ℚ) (tau a : ℚ) :
    (evaluate_tau_classifier g b tau a).balanced_accuracy ≤ 1 := by
  have h1 := tpr_le_one g b tau a
  have h2 := tnr_le_one g b tau a
  unfold evaluate_tau_classifier at h1 h2 ⊢
  dsimp only at h1 h2 ⊢
  linarith

theorem classifier_perfect {g b : List ℚ} {tau a : ℚ} (hg : g ≠ [])
    (hb : b ≠ [])
    (hgood : ∀ x ∈ g, x ≤ tau * (1 - a / 100))
    (hbad : ∀ x ∈ b, tau * (1 - a / 100) < x) :
    (evaluate_tau_classifier g b tau a).balanced_accuracy = 1 := by
  unfold evaluate_tau_classifier
  dsimp only
  have htp : g.countP (fun r => decide (r ≤ tau * (1 - a / 100))) =
      g.length := by
    rw [List.countP_eq_length]
    intro x hx
    exact decide_eq_true (hgood x hx)
  have htn : b.countP (fun r => decide (tau * (1 - a / 100) < r)) =
      b.length := by
    rw [List.countP_eq_length]
    intro x hx
    exact decide_eq_true (hbad x hx)
  rw [htp, htn]
  rw [if_neg (by simpa using List.length_pos.mpr hg |>.ne'),
    if_neg (by simpa using List.length_pos.mpr hb |>.ne')]
  have hgl : ((g.length : ℚ)) ≠ 0 := by
    exact_mod_cast (List.length_pos.mpr hg).ne'
  have hbl : ((b.length : ℚ)) ≠ 0 := by
    exact_mod_cast (List.length_pos.mpr hb).ne'
  rw [div_self hgl, div_self hbl]
  norm_num

theorem classifier_bal_one_counts {g b : List ℚ} {tau a : ℚ} (hg : g ≠ [])
    (hb : b ≠ [])
    (hbal : (evaluate_tau_classifier g b tau a).balanced_accuracy = 1) :
    (evaluate_tau_classifier g b tau a).fn = 0 ∧
      (evaluate_tau_classifier g b tau a).fp = 0 := by
  have h1 := tpr_le_one g b tau a
  have h2 := tnr_le_one g b tau a
  have htpr : (evaluate_tau_classifier g b tau a).tpr = 1 := by
    unfold evaluate_tau_classifier at hbal h1 h2 ⊢
    dsimp only at hbal h1 h2 ⊢
    linarith
  have htnr : (evaluate_tau_classifier g b tau a).tnr = 1 := by
    unfold evaluate_tau_classifier at hbal h1 h2 ⊢
    dsimp only at hbal h1 h2 ⊢
    linarith
  have hgl : g.length ≠ 0 := by simpa using List.length_pos.mpr hg |>.ne'
  have hbl : b.length ≠ 0 := by simpa using List.length_pos.mpr hb |>.ne'
  constructor
  · unfold evaluate_tau_classifier at htpr ⊢
    dsimp only at htpr ⊢
    rw [if_neg hgl] at htpr
    have : ((g.countP fun r => decide (r ≤ tau * (1 - a / 100)) : ℕ) : ℚ) =
        (g.length : ℚ) := by
      have hql : ((g.length : ℚ)) ≠ 0 := by exact_mod_cast hgl
      rw [div_eq_iff hql, one_mul] at htpr
      exact htpr
    have hn : g.countP (fun r => decide (r ≤ tau * (1 - a / 100))) =
        g.length := by exact_mod_cast this
    omega
  · unfold evaluate_tau_classifier at htnr ⊢
    dsimp only at htnr ⊢
    rw [if_neg hbl] at htnr
    have : ((b.countP fun r => decide (tau * (1 - a / 100) < r) : ℕ) : ℚ) =
        (b.length : ℚ) := by
      have hql : ((b.length : ℚ)) ≠ 0 := by exact_mod_cast hbl
      rw [div_eq_iff hql, one_mul] at htnr
      exact htnr
    have hn : b.countP (fun r => decide (tau * (1 - a / 100) < r)) =
        b.length := by exact_mod_cast this
    omega

/-! ## Lemmas: the candidate set of the labeled tau sweep -/

theorem clampTau_mem_Icc {tau_min tau_max : ℚ} (h : tau_min ≤ tau_max)
    (v : ℚ) : tau_min ≤ clampTau tau_min tau_max v ∧
      clampTau tau_min tau_max v ≤ tau_max := by
  unfold clampTau
  constructor
  · exact le_min h (le_max_left _ _)
  · exact min_le_left _ _

theorem clampTau_min_self {tau_min tau_max : ℚ} (h : tau_min ≤ tau_max) :
    clampTau tau_min tau_max tau_min = tau_min := by
  unfold clampTau
  rw [max_self, min_eq_right h]

theorem clampTau_max_self {tau_min tau_max : ℚ} (h : tau_min ≤ tau_max) :
    clampTau tau_min tau_max tau_max = tau_max := by
  unfold clampTau
  rw [max_eq_right h, min_self]

theorem sorted_head_le {l : List ℚ} (hs : l.Sorted (· ≤ ·)) (hne : l ≠ [])
    {x : ℚ} (hx : x ∈ l) : l.head hne ≤ x := by
  cases l with
  | nil => exact absurd rfl hne
  | cons a as =>
    rcases List.mem_cons.mp hx with rfl | hx'
    · exact le_refl _
    · exact List.rel_of_sorted_cons hs x hx'

/-- The structural facts about `midpoint_candidates_core` on a sorted value
list whose head is `tau_min`, whose last element is `tau_max`, and whose
elements lie in `[tau_min, tau_max]`: the extremes survive the tolerance
dedup, and every candidate stays inside `[tau_min, tau_max]`. -/
theorem midpoint_candidates_core_struct {v : ℚ} {vs : List ℚ}
    {tau_min tau_max : ℚ} (hlt : tau_min < tau_max)
    (htol : ¬ |tau_max - tau_min| ≤ 1 / 10 ^ 12)
    (hhead : v = tau_min)
    (hlast : (v :: vs).getLast (by simp) = tau_max)
    (hbounds : ∀ x ∈ v :: vs, tau_min ≤ x ∧ x ≤ tau_max) :
    tau_max ∈ midpoint_candidates_core v vs ∧
      ∀ c ∈ midpoint_candidates_core v vs,
        tau_min ≤ c ∧ c ≤ tau_max := by
  subst hhead
  have hle : v ≤ tau_max := le_of_lt hlt
  unfold midpoint_candidates_core
  rw [hlast]
  constructor
  · exact (uniqTol_keeps_first_two htol).2
  · intro c hc
    have hc' := mem_uniqTol hc
    rcases List.mem_cons.mp hc' with rfl | hc'
    · exact ⟨le_refl _, hle⟩
    · rcases List.mem_cons.mp hc' with rfl | hc'
      · exact ⟨hle, le_refl _⟩
      · obtain ⟨lr, hlr, hlrc⟩ := List.mem_flatMap.mp hc'
        obtain ⟨h1, h2⟩ := List.of_mem_zip hlr
        have hm1 := hbounds lr.1 h1
        have hm2 := hbounds lr.2 (List.mem_of_mem_tail h2)
        simp only [List.mem_cons, List.not_mem_nil, or_false] at hlrc
        rcases hlrc with rfl | rfl | rfl
        · constructor <;> [linarith [hm1.1, hm2.1]; linarith [hm1.2, hm2.2]]
        · exact hm1
        · exact hm2

/-- The structural facts about `midpoint_candidates` on a boundary list
of the shape `[tau_min, tau_max] ++ rest` with `tau_min < tau_max` not
within the duplicate tolerance of each other. -/
theorem midpoint_candidates_struct {rest : List ℚ} {tau_min tau_max : ℚ}
    (hlt : tau_min < tau_max)
    (htol : ¬ |tau_max - tau_min| ≤ 1 / 10 ^ 12) :
    tau_max ∈ midpoint_candidates (tau_min :: tau_max :: rest)
        tau_min tau_max ∧
      ∀ c ∈ midpoint_candidates (tau_min :: tau_max :: rest) tau_min
        tau_max, tau_min ≤ c ∧ c ≤ tau_max := by
  have hle : tau_min ≤ tau_max := le_of_lt hlt
  have hne : sortQ ((tau_min :: tau_max :: rest).map
      (clampTau tau_min tau_max)).dedup ≠ [] := by
    apply sortQ_ne_nil
    rw [Ne, List.dedup_eq_nil]
    simp
  obtain ⟨v, vs, hveq⟩ := List.exists_cons_of_ne_nil hne
  have hminv : tau_min ∈ v :: vs := by
    have hm0 : clampTau tau_min tau_max tau_min ∈
        (tau_min :: tau_max :: rest).map (clampTau tau_min tau_max) :=
      List.mem_map_of_mem _ (List.mem_cons_self _ _)
    rw [clampTau_min_self hle] at hm0
    exact hveq ▸ mem_sortQ.mpr (List.mem_dedup.mpr hm0)
  have hmaxv : tau_max ∈ v :: vs := by
    have hm0 : clampTau tau_min tau_max tau_max ∈
        (tau_min :: tau_max :: rest).map (clampTau tau_min tau_max) :=
      List.mem_map_of_mem _
        (List.mem_cons_of_mem _ (List.mem_cons_self _ _))
    rw [clampTau_max_self hle] at hm0
    exact hveq ▸ mem_sortQ.mpr (List.mem_dedup.mpr hm0)
  have hbounds : ∀ x ∈ v :: vs, tau_min ≤ x ∧ x ≤ tau_max := by
    intro x hx
    rw [← hveq, mem_sortQ, List.mem_dedup] at hx
    obtain ⟨w, _, hw⟩ := List.mem_map.mp hx
    rw [← hw]
    exact clampTau_mem_Icc hle w
  have hsorted : (v :: vs).Sorted (· ≤ ·) := hveq ▸ sortQ_sorted _
  have hhead : v = tau_min := by
    have h1 : v ≤ tau_min := sorted_head_le hsorted (by simp) hminv
    exact le_antisymm h1 (hbounds v (List.mem_cons_self _ _)).1
  have hlast : (v :: vs).getLast (by simp) = tau_max := by
    apply sorted_getLast_eq hsorted (by simp) hmaxv
    intro x hx
    exact (hbounds x hx).2
  have hmc : midpoint_candidates (tau_min :: tau_max :: rest) tau_min
      tau_max = midpoint_candidates_core v vs := by
    unfold midpoint_candidates
    rw [hveq]
  rw [hmc]
  exact midpoint_candidates_core_struct hlt htol hhead hlast hbounds

/-- With `tau_min < tau_max` beyond the duplicate tolerance, `tau_max`
survives candidate construction and downsampling (to at least two points):
it is the last element of the sorted full candidate list, and
`downsample_sorted_values` always keeps the last element. -/
theorem tau_max_mem_downsampled (good_values bad_values : List ℚ)
    {accept_ipn tau_min tau_max : ℚ} (hlt : tau_min < tau_max)
    (htol : ¬ |tau_max - tau_min| ≤ 1 / 10 ^ 12) {mp : ℕ} (hmp : 2 ≤ mp) :
    tau_max ∈ downsample_sorted_values
      (full_tau_candidates good_values bad_values accept_ipn tau_min
        tau_max) mp := by
  obtain ⟨hmax, hbnd⟩ := @midpoint_candidates_struct
    ((good_values ++ bad_values).map (fun r => r / (1 - accept_ipn / 100)))
    tau_min tau_max hlt htol
  have hfull : full_tau_candidates good_values bad_values accept_ipn
      tau_min tau_max = sortQ (midpoint_candidates
        (tau_min :: tau_max :: (good_values ++ bad_values).map
          (fun r => r / (1 - accept_ipn / 100))) tau_min tau_max).dedup := by
    unfold full_tau_candidates
    simp only [List.cons_append, List.nil_append]
    rw [if_neg ?_]
    rw [Bool.not_eq_true, List.isEmpty_eq_false_iff_exists_mem]
    exact ⟨tau_max, mem_sortQ.mpr (List.mem_dedup.mpr hmax)⟩
  have hmem : tau_max ∈ full_tau_candidates good_values bad_values
      accept_ipn tau_min tau_max := by
    rw [hfull]
    exact mem_sortQ.mpr (List.mem_dedup.mpr hmax)
  have hne : full_tau_candidates good_values bad_values accept_ipn tau_min
      tau_max ≠ [] := by
    intro hc
    rw [hc] at hmem
    simp at hmem
  have hsorted : (full_tau_candidates good_values bad_values accept_ipn
      tau_min tau_max).Sorted (· ≤ ·) := by
    rw [hfull]
    exact sortQ_sorted _
  have hbound : ∀ x ∈ full_tau_candidates good_values bad_values accept_ipn
      tau_min tau_max, x ≤ tau_max := by
    intro x hx
    rw [hfull, mem_sortQ, List.mem_dedup] at hx
    exact (hbnd x hx).2
  have hlast : (full_tau_candidates good_values bad_values accept_ipn
      tau_min tau_max).getLast hne = tau_max :=
    sorted_getLast_eq hsorted hne hmem hbound
  have := downsample_getLast_mem hne hmp
  rw [hlast] at this
  exact this

/-- The full candidate list is never empty. -/
theorem full_tau_candidates_ne_nil (good_values bad_values : List ℚ)
    (accept_ipn tau_min tau_max : ℚ) :
    full_tau_candidates good_values bad_values accept_ipn tau_min
      tau_max ≠ [] := by
  unfold full_tau_candidates
  dsimp only
  split
  · simp
  · next h =>
    simpa [List.isEmpty_iff] using h

/-! ## Lemmas: unfolding the labeled calibration pipeline -/

theorem build_labeled_tau_curve_ok {g b : List ℚ} {a tmin tmax : ℚ}
    {mp : ℕ} (ha : 0 < a ∧ a < 100) (h1 : ¬ tmin ≤ 0) (h2 : ¬ tmax ≤ tmin)
    (hmp : ¬ mp = 0) (hg : g ≠ []) (hb : b ≠ []) :
    build_labeled_tau_curve g b a tmin tmax mp = .ok
      { accept_ipn := a, tau_min := tmin, tau_max := tmax
        good_reports_used := g.length, bad_reports_used := b.length
        points := (downsample_sorted_values
          (full_tau_candidates g b a tmin tmax) mp).map
          (tauPointAt g b a) } := by
  unfold build_labeled_tau_curve
  rw [if_neg (not_not_intro ha), if_neg h1, if_neg h2, if_neg hmp,
    if_neg (by simp [List.isEmpty_iff, hg, hb])]

theorem points_ne_nil (g b : List ℚ) (a tmin tmax : ℚ) (mp : ℕ) :
    (downsample_sorted_values (full_tau_candidates g b a tmin tmax)
      mp).map (tauPointAt g b a) ≠ [] := by
  intro hc
  rw [List.map_eq_nil_iff] at hc
  exact downsample_ne_nil (full_tau_candidates_ne_nil g b a tmin tmax)
    mp hc

theorem calibrate_labeled_ok {g b : List ℚ} {a tmin tmax : ℚ}
    (ha : 0 < a ∧ a < 100) (h1 : ¬ tmin ≤ 0) (h2 : ¬ tmax ≤ tmin)
    (hg : g ≠ []) (hb : b ≠ []) :
    ∃ p, bestPoint ((downsample_sorted_values
        (full_tau_candidates g b a tmin tmax) 400).map
        (tauPointAt g b a)) none = some p ∧
      calibrate_tau_from_labeled_reports g b a tmin tmax = .ok
        { tau := p.tau, good_reports_used := g.length
          bad_reports_used := b.length, accept_ipn := a, tau_min := tmin
          tau_max := tmax, objective := "balanced_accuracy"
          balanced_accuracy := p.balanced_accuracy, tpr := p.tpr
          tnr := p.tnr, tp := p.tp, fn := p.fn, tn := p.tn, fp := p.fp } := by
  obtain ⟨p, hp⟩ := @scanBest_some_of_ne_nil pointGT _
    (points_ne_nil g b a tmin tmax 400)
  refine ⟨p, hp, ?_⟩
  unfold calibrate_tau_from_labeled_reports
  rw [if_neg (not_not_intro ha), if_neg h1, if_neg h2,
    if_neg (by simp [List.isEmpty_iff, hg, hb]),
    build_labeled_tau_curve_ok ha h1 h2 (by norm_num) hg hb]
  dsimp only
  rw [show bestPoint ((downsample_sorted_values
      (full_tau_candidates g b a tmin tmax) 400).map
      (tauPointAt g b a)) none = some p from hp]

theorem pointGT_trans (x y z : TauCurvePoint) (h1 : pointGT x y = true)
    (h2 : pointGT y z = true) : pointGT x z = true :=
  keyGT_trans h1 h2

theorem pointGT_neg_trans (x y z : TauCurvePoint)
    (h1 : pointGT x y = false) (h2 : pointGT y z = false) :
    pointGT x z = false :=
  keyGT_neg_trans h1 h2

theorem pointGT_irrefl (x : TauCurvePoint) : pointGT x x = false :=
  keyGT_irrefl _

theorem tauPointAt_fields (g b : List ℚ) (a t : ℚ) :
    (tauPointAt g b a t).balanced_accuracy =
        (evaluate_tau_classifier g b t a).balanced_accuracy ∧
      (tauPointAt g b a t).fn = (evaluate_tau_classifier g b t a).fn ∧
      (tauPointAt g b a t).fp = (evaluate_tau_classifier g b t a).fp ∧
      (tauPointAt g b a t).tau = t := by
  unfold tauPointAt
  exact ⟨rfl, rfl, rfl, rfl⟩

theorem point_bal_le_one {g b : List ℚ} {a : ℚ} {mp : ℕ}
    {p : TauCurvePoint}
    (hp : p ∈ (downsample_sorted_values
      (full_tau_candidates g b a tmin tmax) mp).map (tauPointAt g b a)) :
    p.balanced_accuracy ≤ 1 := by
  obtain ⟨t, _, hpt⟩ := List.mem_map.mp hp
  rw [← hpt, (tauPointAt_fields g b a t).1]
  exact balanced_accuracy_le_one g b t a

/-! ## Claim theorems: tau calibration -/

/-- Claim C10: whenever several candidate tau values attain the maximal
balanced accuracy over the sweep, `calibrate_tau_from_labeled_reports`
deterministically returns the smallest such tau: the selected result is
realized by a sweep point, its balanced accuracy dominates every sweep
point, and every sweep point attaining the same balanced accuracy has a tau
at least as large as the selected one. -/
theorem calibrate_tau_tie_break_prefers_lower_tau (g b : List ℚ)
    (a tmin tmax : ℚ) (ha1 : 0 < a) (ha2 : a < 100) (h1 : 0 < tmin)
    (h2 : tmin < tmax) (hg : g ≠ []) (hb : b ≠ []) :
    ∃ curve res,
      build_labeled_tau_curve g b a tmin tmax = .ok curve ∧
      calibrate_tau_from_labeled_reports g b a tmin tmax = .ok res ∧
      (∃ p ∈ curve.points, p.tau = res.tau ∧
        p.balanced_accuracy = res.balanced_accuracy) ∧
      ∀ p ∈ curve.points,
        p.balanced_accuracy ≤ res.balanced_accuracy ∧
        (p.balanced_accuracy = res.balanced_accuracy →
          res.tau ≤ p.tau) := by
  have h1' : ¬ tmin ≤ 0 := not_le.mpr h1
  have h2' : ¬ tmax ≤ tmin := not_le.mpr h2
  obtain ⟨p, hp, hcal⟩ := calibrate_labeled_ok ⟨ha1, ha2⟩ h1' h2' hg hb
  refine ⟨_, _,
    build_labeled_tau_curve_ok ⟨ha1, ha2⟩ h1' h2' (by norm_num) hg hb,
    hcal, ⟨p, scanBest_mem_of_none hp, rfl, rfl⟩, ?_⟩
  intro q hq
  obtain ⟨-, hopt⟩ :=
    scanBest_optimal pointGT_trans pointGT_neg_trans pointGT_irrefl hp
  have hcmp := (keyGT_eq_false_iff (tauSelKey q) (tauSelKey p)).mp
    (hopt q hq)
  refine ⟨hcmp.1, fun he => ?_⟩
  have := hcmp.2 he
  simp only [tauSelKey] at this
  linarith

/-- Claim C7 (amended): for well-separated labeled ratio sets (good ratios
in `[0.08, 0.10]`, bad ratios in `[0.35, 0.45]`, `accept_ipn = 70`),
`calibrate_tau_from_labeled_reports` selects a tau with perfect
classification — provided the tau range admits the separating threshold
(here the service/CLI default `tau_max = 0.5`; the function's own default
`tau_max = 0.2` caps every candidate threshold at `0.06`, below all good
ratios, refuting the claim as stated). -/
theorem calibrate_tau_separated_perfect (g b : List ℚ)
    (hg : g ≠ []) (hb : b ≠ [])
    (hgood : ∀ x ∈ g, 2 / 25 ≤ x ∧ x ≤ 1 / 10)
    (hbad : ∀ x ∈ b, 7 / 20 ≤ x ∧ x ≤ 9 / 20) :
    ∃ res,
      calibrate_tau_from_labeled_reports g b 70 (1 / 200) (1 / 2) =
        .ok res ∧
      res.balanced_accuracy = 1 ∧ res.fp = 0 ∧ res.fn = 0 := by
  obtain ⟨p, hp, hcal⟩ := @calibrate_labeled_ok g b 70 (1 / 200) (1 / 2)
    ⟨by norm_num, by norm_num⟩ (by norm_num) (by norm_num) hg hb
  have hmem : (1 / 2 : ℚ) ∈ downsample_sorted_values
      (full_tau_candidates g b 70 (1 / 200) (1 / 2)) 400 := by
    apply tau_max_mem_downsampled g b (by norm_num) ?_ (by norm_num)
    rw [show |(1 / 2 : ℚ) - 1 / 200| = 99 / 200 by norm_num]
    norm_num
  have hpt : tauPointAt g b 70 (1 / 2) ∈ (downsample_sorted_values
      (full_tau_candidates g b 70 (1 / 200) (1 / 2)) 400).map
      (tauPointAt g b 70) := List.mem_map_of_mem _ hmem
  have hthr : (1 / 2 : ℚ) * (1 - 70 / 100) = 3 / 20 := by norm_num
  have hperf : (tauPointAt g b 70 (1 / 2)).balanced_accuracy = 1 := by
    rw [(tauPointAt_fields g b 70 (1 / 2)).1]
    apply classifier_perfect hg hb
    · intro x hx
      rw [hthr]
      linarith [(hgood x hx).2]
    · intro x hx
      rw [hthr]
      linarith [(hbad x hx).1]
  obtain ⟨hpmem, hopt⟩ :=
    scanBest_optimal pointGT_trans pointGT_neg_trans pointGT_irrefl hp
  have hcmp := (keyGT_eq_false_iff (tauSelKey (tauPointAt g b 70 (1 / 2)))
    (tauSelKey p)).mp (hopt _ hpt)
  have hble : (1 : ℚ) ≤ p.balanced_accuracy := by
    have := hcmp.1
    simp only [tauSelKey] at this
    rw [hperf] at this
    exact this
  have hbal1 : p.balanced_accuracy = 1 :=
    le_antisymm (point_bal_le_one hpmem) hble
  obtain ⟨t, -, hpt_eq⟩ := List.mem_map.mp hpmem
  have hbal1' : (evaluate_tau_classifier g b t 70).balanced_accuracy = 1 := by
    rw [← (tauPointAt_fields g b 70 t).1, hpt_eq, hbal1]
  obtain ⟨hfn, hfp⟩ := classifier_bal_one_counts hg hb hbal1'
  refine ⟨_, hcal, hbal1, ?_, ?_⟩
  · show p.fp = 0
    rw [← hpt_eq, (tauPointAt_fields g b 70 t).2.2.1]
    exact hfp
  · show p.fn = 0
    rw [← hpt_eq, (tauPointAt_fields g b 70 t).2.1]
    exact hfn

/-- Witness for claim C10 at a concrete two-report input. -/
theorem calibrate_tau_tie_break_prefers_lower_tau_witness :
    ∃ curve res,
      build_labeled_tau_curve [1 / 20] [1 / 4] 50 (1 / 10) (1 / 2) =
        .ok curve ∧
      calibrate_tau_from_labeled_reports [1 / 20] [1 / 4] 50 (1 / 10)
        (1 / 2) = .ok res ∧
      (∃ p ∈ curve.points, p.tau = res.tau ∧
        p.balanced_accuracy = res.balanced_accuracy) ∧
      ∀ p ∈ curve.points,
        p.balanced_accuracy ≤ res.balanced_accuracy ∧
        (p.balanced_accuracy = res.balanced_accuracy →
          res.tau ≤ p.tau) :=
  calibrate_tau_tie_break_prefers_lower_tau [1 / 20] [1 / 4] 50 (1 / 10)
    (1 / 2) (by norm_num) (by norm_num) (by norm_num) (by norm_num)
    (by simp) (by simp)

/-- Counterexample for claim C7 as stated: with the function's own default
tau range (`tau_min = 0.005`, `tau_max = 0.2`), the well-separated input
(good ratio 0.08, bad ratio 0.35, `accept_ipn = 70`) yields balanced
accuracy 1/2 with one false negative — every candidate threshold is at most
`0.2 * 0.3 = 0.06`, below all good ratios, so no tau classifies the good
report as accept. -/
theorem calibrate_tau_separated_default_range_fails :
    ((calibrate_tau_from_labeled_reports [2 / 25] [7 / 20]).toOption.map
      (fun r => (r.balanced_accuracy, r.fn, r.fp))) =
      some (1 / 2, 1, 0) := by
  with_unfolding_all decide

/-- Witness for claim C7's amended theorem at a concrete separated input. -/
theorem calibrate_tau_separated_perfect_witness :
    ∃ res,
      calibrate_tau_from_labeled_reports [2 / 25] [7 / 20] 70 (1 / 200)
        (1 / 2) = .ok res ∧
      res.balanced_accuracy = 1 ∧ res.fp = 0 ∧ res.fn = 0 :=
  calibrate_tau_separated_perfect [2 / 25] [7 / 20] (by simp) (by simp)
    (by
      intro x hx
      rw [List.mem_singleton] at hx
      subst hx
      norm_num)
    (by
      intro x hx
      rw [List.mem_singleton] at hx
      subst hx
      norm_num)

/-- Claim C2 (supporting theorem, reduced scale): the downsampling applied
by `build_labeled_tau_curve` — which `calibrate_tau_from_labeled_reports`
reuses for its selection sweep with the fixed default `max_points = 400` —
is not presentation-only: at `max_points = 2` the full candidate set of
this input contains a tau with balanced accuracy 1, while every point of
the downsampled curve has balanced accuracy below 1. The same loss occurs
at the fixed 400-point limit once the candidate set exceeds 400 entries
(about 200 distinct report ratios), changing the selected tau. -/
theorem downsample_biases_selection_curve :
    ((1 : ℚ) / 5 ∈ full_tau_candidates [1 / 10] [3 / 10] 50 (1 / 100) 1 ∧
      (tauPointAt [1 / 10] [3 / 10] 50 (1 / 5)).balanced_accuracy = 1) ∧
    (build_labeled_tau_curve [1 / 10] [3 / 10] 50 (1 / 100) 1 2).isOk =
      true ∧
    ((build_labeled_tau_curve [1 / 10] [3 / 10] 50 (1 / 100) 1
        2).toOption.all
      (fun curve => curve.points.all
        (fun p => decide (p.balanced_accuracy < 1)))) = true := by
  refine ⟨⟨?_, ?_⟩, ?_, ?_⟩
  · with_unfolding_all decide
  · with_unfolding_all decide
  · with_unfolding_all decide
  · with_unfolding_all decide

set_option maxHeartbeats 1600000 in
/-- Claim C1 (spec-modelled): when the active constraint set admits no
feasible sweep point, the constrained labeled calibration does not raise:
it returns the best unconstrained point under the configured objective and
records `constraints_satisfied = false`, `feasible_points = 0` and the
fixed fallback reason code. -/
theorem constrained_calibration_infeasible_fallback (g b : List ℚ)
    (a tmin tmax : ℚ) (obj : TauObjective) (c : TauConstraints)
    (ha1 : 0 < a) (ha2 : a < 100) (h1 : 0 < tmin) (h2 : tmin < tmax)
    (hg : g ≠ []) (hb : b ≠ [])
    (hinf : ∀ t ∈ downsample_sorted_values
      (full_tau_candidates g b a tmin tmax) 400,
      pointFeasible c (tauPointAt g b a t) = false) :
    ∃ p res,
      scanBest (pointGT3 obj) ((downsample_sorted_values
        (full_tau_candidates g b a tmin tmax) 400).map
        (tauPointAt g b a)) none = some p ∧
      calibrate_tau_labeled_constrained g b a tmin tmax obj c = .ok res ∧
      res.constraints_satisfied = false ∧ res.feasible_points = 0 ∧
      res.fallback_reason = some fallbackReasonCode ∧ res.tau = p.tau ∧
      ∀ q ∈ (downsample_sorted_values
        (full_tau_candidates g b a tmin tmax) 400).map (tauPointAt g b a),
        pointGT3 obj q p = false := by
  have h1' : ¬ tmin ≤ 0 := not_le.mpr h1
  have h2' : ¬ tmax ≤ tmin := not_le.mpr h2
  obtain ⟨p, hp⟩ := @scanBest_some_of_ne_nil (pointGT3 obj) _
    (points_ne_nil g b a tmin tmax 400)
  have hfe : ((downsample_sorted_values
      (full_tau_candidates g b a tmin tmax) 400).map
      (tauPointAt g b a)).filter (pointFeasible c) = [] := by
    rw [List.filter_eq_nil_iff]
    intro q hq
    obtain ⟨t, ht, hq'⟩ := List.mem_map.mp hq
    rw [← hq']
    simp [hinf t ht]
  refine ⟨p, constrainedResultOf g b a tmin tmax obj c false 0
    (some fallbackReasonCode) p, hp, ?_, rfl, rfl, rfl, rfl, ?_⟩
  · unfold calibrate_tau_labeled_constrained
    rw [if_neg (not_not_intro ⟨ha1, ha2⟩), if_neg h1', if_neg h2',
      if_neg (by simp [List.isEmpty_iff, hg, hb]),
      build_labeled_tau_curve_ok ⟨ha1, ha2⟩ h1' h2' (by norm_num) hg hb]
    dsimp only
    rw [hfe]
    dsimp only [List.isEmpty_nil]
    rw [if_pos rfl, hp]
  · exact (@scanBest_optimal (pointGT3 obj)
      (fun x y z hxy hyz => keyGT3_trans hxy hyz)
      (fun x y z hxy hyz => keyGT3_neg_trans hxy hyz)
      (fun x => keyGT3_irrefl (objectiveKey obj x)) _ _ hp).2

/-- Witness for claim C1: a concrete infeasible constraint set
(`max_mean_ipn_bad = 1` together with `min_tpr = 1`, as in the repository's
constraint-fallback test). -/
theorem constrained_calibration_infeasible_fallback_witness :
    ∃ p res,
      scanBest (pointGT3 .balanced_accuracy_then_gap)
        ((downsample_sorted_values
          (full_tau_candidates [1 / 5] [2 / 5] 70 (1 / 20) 1) 400).map
          (tauPointAt [1 / 5] [2 / 5] 70)) none = some p ∧
      calibrate_tau_labeled_constrained [1 / 5] [2 / 5] 70 (1 / 20) 1
        .balanced_accuracy_then_gap ⟨some 1, none, some 1, none⟩ =
        .ok res ∧
      res.constraints_satisfied = false ∧ res.feasible_points = 0 ∧
      res.fallback_reason = some fallbackReasonCode ∧ res.tau = p.tau ∧
      ∀ q ∈ (downsample_sorted_values
        (full_tau_candidates [1 / 5] [2 / 5] 70 (1 / 20) 1) 400).map
        (tauPointAt [1 / 5] [2 / 5] 70),
        pointGT3 .balanced_accuracy_then_gap q p = false :=
  constrained_calibration_infeasible_fallback [1 / 5] [2 / 5] 70 (1 / 20)
    1 .balanced_accuracy_then_gap ⟨some 1, none, some 1, none⟩
    (by norm_num) (by norm_num) (by norm_num) (by norm_num) (by simp)
    (by simp) (by with_unfolding_all decide)

/-! ## Lemmas and claims: the resampler -/

theorem resample_total_eq (len2 : Point → Point → ℚ) (points : List Point) :
    (arc_table ((polySegments (ensure_closed points)).map
      (fun pq => len2 pq.1 pq.2))).getLastD 0 = totalArcLen len2 points :=
  rfl

theorem resample_ok_length (len2 : Point → Point → ℚ)
    (points : List Point) (step : Option ℚ) (np : Option ℕ)
    (maxp : Option ℕ) (h3 : 3 ≤ points.length)
    (hpos : 0 < totalArcLen len2 points) (nres : ℕ)
    (hres : (match np, step with
      | some n, _ => some n
      | none, none => none
      | none, some s => some (max 8
          (Int.ceil (totalArcLen len2 points / s))).toNat) = some nres) :
    ∃ out, resample_closed_contour len2 points step np maxp = .ok out ∧
      out.length = (match maxp with
        | none => nres
        | some m => min nres m) := by
  unfold resample_closed_contour
  rw [if_neg (by omega : ¬ points.length < 3)]
  dsimp only
  rw [resample_total_eq len2 points, if_neg (not_le.mpr hpos)]
  rcases np with - | n
  · rcases step with - | s
    · simp at hres
    · simp only [Option.some.injEq] at hres
      subst hres
      refine ⟨_, rfl, ?_⟩
      rcases maxp with - | m <;> simp [List.length_map, List.length_range]
  · simp only [Option.some.injEq] at hres
    subst hres
    refine ⟨_, rfl, ?_⟩
    rcases maxp with - | m <;> simp [List.length_map, List.length_range]

/-- Claim C3 (amended): for every segment-length function, every input with
at least three points and positive perimeter, `resample_closed_contour`
with `num_points = N` returns exactly `min N max_points` points (exactly
`N` when `max_points` is `None`, and in particular whenever
`N ≤ max_points`); when `num_points` is not given, the returned count is
`ceil(perimeter / step_px)` clamped to `[8, max_points]`. The explicit
`num_points` is clamped to `max_points` too — with the default
`max_points = 20000` a request for more points is not honoured exactly,
refuting the unconditional "always returns exactly N" reading. -/
theorem resample_count_spec (len2 : Point → Point → ℚ)
    (points : List Point) (step : Option ℚ) (h3 : 3 ≤ points.length)
    (hpos : 0 < totalArcLen len2 points) :
    (∀ n, ∃ out, resample_closed_contour len2 points step (some n) none =
      .ok out ∧ out.length = n) ∧
    (∀ n m, ∃ out,
      resample_closed_contour len2 points step (some n) (some m) =
        .ok out ∧ out.length = min n m) ∧
    (∀ s m, ∃ out,
      resample_closed_contour len2 points (some s) none (some m) =
        .ok out ∧ out.length =
          min (max 8 (Int.ceil (totalArcLen len2 points / s))).toNat m) := by
  refine ⟨fun n => ?_, fun n m => ?_, fun s m => ?_⟩
  · exact resample_ok_length len2 points step (some n) none h3 hpos n rfl
  · exact resample_ok_length len2 points step (some n) (some m) h3 hpos
      n rfl
  · exact resample_ok_length len2 points (some s) none (some m) h3 hpos
      _ rfl

/-- Witness for claim C3's amended theorem on a concrete triangle with the
constant-1 segment-length function (three segments, perimeter 3). -/
theorem resample_count_spec_witness :
    (∀ n, ∃ out, resample_closed_contour (fun _ _ => 1)
      [(0, 0), (1, 0), (0, 1)] (some (3 / 2)) (some n) none =
      .ok out ∧ out.length = n) ∧
    (∀ n m, ∃ out, resample_closed_contour (fun _ _ => 1)
      [(0, 0), (1, 0), (0, 1)] (some (3 / 2)) (some n) (some m) =
        .ok out ∧ out.length = min n m) ∧
    (∀ s m, ∃ out, resample_closed_contour (fun _ _ => 1)
      [(0, 0), (1, 0), (0, 1)] (some s) none (some m) =
        .ok out ∧ out.length = min (max 8 (Int.ceil
          (totalArcLen (fun _ _ => 1) [(0, 0), (1, 0), (0, 1)] / s))).toNat
          m) :=
  resample_count_spec (fun _ _ => 1) [(0, 0), (1, 0), (0, 1)]
    (some (3 / 2)) (by simp) (by with_unfolding_all decide)

/-- Counterexample for claim C3 as stated: with the default
`max_points = 20000`, requesting `num_points = 20001` returns 20000 points,
not 20001. -/
theorem resample_num_points_clamped_counterexample :
    ∃ out, resample_closed_contour (fun _ _ => 1)
      [(0, 0), (1, 0), (0, 1)] (some (3 / 2)) (some 20001) =
      .ok out ∧ out.length = 20000 ∧ out.length ≠ 20001 := by
  obtain ⟨out, hout, hlen⟩ := resample_ok_length (fun _ _ => 1)
    [(0, 0), (1, 0), (0, 1)] (some (3 / 2)) (some 20001) (some 20000)
    (by simp) (by with_unfolding_all decide) 20001 rfl
  refine ⟨out, hout, ?_, ?_⟩
  · rw [hlen]
    norm_num
  · rw [hlen]
    norm_num

/-! ## Claims: the registration estimators -/

/-- Claim C5: every result of the three estimators carries a 3×3 homography
(by construction of the `Mat3` field), and that matrix is the identity
whenever `success = false`, for every configuration and every oracle
outcome of the external OpenCV calls. -/
theorem registration_identity_on_failure :
    (∀ cfg o, (estimate_homography_orb cfg o).success = false →
      (estimate_homography_orb cfg o).homography = identity3) ∧
    (∀ tf sf, (estimate_homography_axes tf sf).success = false →
      (estimate_homography_axes tf sf).homography = identity3) ∧
    (∀ cfg o, (estimate_homography_ecc cfg o).success = false →
      (estimate_homography_ecc cfg o).homography = identity3) := by
  refine ⟨?_, ?_, ?_⟩
  · intro cfg o h
    by_cases h1 : o.des_t_present = false ∨ o.des_s_present = false
    · simp [estimate_homography_orb, h1]
    · by_cases h2 : o.knn_matches.countP (knnPairGood cfg) <
          cfg.min_matches
      · simp [estimate_homography_orb, h1, h2]
      · rcases hfh : o.find_homography with - | ⟨hmat, mask⟩
        · simp [estimate_homography_orb, h1, h2, hfh]
        · by_cases h3 : maskMean mask < cfg.min_inlier_frac
          · simp [estimate_homography_orb, h1, h2, hfh, h3]
          · exfalso
            rw [estimate_homography_orb] at h
            simp [h1, h2, hfh, h3] at h
  · intro tf sf h
    rcases tf with - | tfr
    · simp [estimate_homography_axes]
    · rcases sf with - | sfr
      · simp [estimate_homography_axes]
      · by_cases hdet : |(axisBasis sfr).1 * (axisBasis sfr).2.2.2 -
            (axisBasis sfr).2.1 * (axisBasis sfr).2.2.1| < 1 / 10 ^ 6
        · rw [estimate_homography_axes]
          dsimp only
          rw [if_pos hdet]
        · exfalso
          rw [estimate_homography_axes] at h
          dsimp only at h
          rw [if_neg hdet] at h
          simp at h
  · intro cfg o h
    rcases ho : o.outcome with - | ⟨cc, warp⟩
    · simp [estimate_homography_ecc, ho]
    · exfalso
      rw [estimate_homography_ecc] at h
      simp [ho] at h

/-- Witness for claim C5: concrete failing oracles for each estimator
(missing descriptors, missing axis frames, ECC numerical failure). -/
theorem registration_identity_on_failure_witness :
    (estimate_homography_orb ⟨3 / 4, 4, 3, 1 / 2, "affine"⟩
      ⟨false, true, [], none, none⟩).homography = identity3 ∧
    (estimate_homography_axes none none).homography = identity3 ∧
    (estimate_homography_ecc ⟨3 / 4, 4, 3, 1 / 2, "affine"⟩
      ⟨(2, 2), (1, 1), none⟩).homography = identity3 :=
  ⟨registration_identity_on_failure.1 _ _ rfl,
    registration_identity_on_failure.2.1 none none rfl,
    registration_identity_on_failure.2.2 _ _ rfl⟩

/-- Claim C4 (amended): when the fitted homography's RANSAC inlier ratio is
below the configured floor, `estimate_homography_orb` returns
`success = false` with `reason = "low_inlier_ratio"`, the computed inlier
ratio and the mean reprojection error over inliers — but the `homography`
field holds the identity (per the C5 invariant), not the fitted matrix. -/
theorem orb_low_inlier_branch (cfg : RegistrationConfig) (o : OrbOracle)
    (hdt : o.des_t_present = true) (hds : o.des_s_present = true)
    (hgood : ¬ o.knn_matches.countP (knnPairGood cfg) < cfg.min_matches)
    (hmat : Mat3) (mask : List Bool)
    (hfh : o.find_homography = some (hmat, mask))
    (hlow : maskMean mask < cfg.min_inlier_frac) :
    estimate_homography_orb cfg o =
      { success := false, homography := identity3
        method := "identity_fallback"
        matches_total := o.knn_matches.length
        matches_used := o.knn_matches.countP (knnPairGood cfg)
        inlier_frac := maskMean mask
        reprojection_error_px := o.reproj_error
        reason := some "low_inlier_ratio" } := by
  have h1 : ¬ (o.des_t_present = false ∨ o.des_s_present = false) := by
    simp [hdt, hds]
  rw [estimate_homography_orb]
  rw [if_neg h1, if_neg hgood, hfh]
  simp only
  rw [if_pos hlow]

/-- Witness for claim C4's amended theorem at a concrete low-inlier
oracle. -/
theorem orb_low_inlier_branch_witness :
    estimate_homography_orb ⟨3 / 4, 1, 3, 1 / 2, "affine"⟩
      ⟨true, true, [[1, 10]], some (fun _ _ => 2, [false]), some 2⟩ =
      { success := false, homography := identity3
        method := "identity_fallback", matches_total := 1
        matches_used := 1, inlier_frac := 0
        reprojection_error_px := some 2
        reason := some "low_inlier_ratio" } := by
  have h := orb_low_inlier_branch ⟨3 / 4, 1, 3, 1 / 2, "affine"⟩
    ⟨true, true, [[1, 10]], some (fun _ _ => 2, [false]), some 2⟩ rfl rfl
    (by with_unfolding_all decide) (fun _ _ => 2) [false] rfl
    (by with_unfolding_all decide)
  rw [h]
  with_unfolding_all decide

/-- Counterexample for claim C4 as stated: at a concrete low-inlier oracle
the result's `homography` is the identity, not the fitted matrix supplied
by `cv2.findHomography` — the fitted matrix is discarded on this path. -/
theorem orb_low_inlier_not_fitted_counterexample :
    (estimate_homography_orb ⟨3 / 4, 1, 3, 1 / 2, "affine"⟩
        ⟨true, true, [[1, 10]], some (fun _ _ => 2, [false]),
          some 2⟩).reason = some "low_inlier_ratio" ∧
    (estimate_homography_orb ⟨3 / 4, 1, 3, 1 / 2, "affine"⟩
        ⟨true, true, [[1, 10]], some (fun _ _ => 2, [false]),
          some 2⟩).homography ≠ (fun _ _ => 2 : Mat3) := by
  constructor
  · with_unfolding_all decide
  · with_unfolding_all decide

/-! ## Claims: the registration selector -/

/-- Claim C6: for every non-empty candidate list and every per-candidate
score, the selector returns the successful candidate with the lowest MAD
(the abstracted `_registration_mad_px` of its homography); when no
candidate succeeded, it returns the first candidate unchanged with the
selection MAD reported as unavailable. -/
theorem selector_picks_lowest_mad (madPx : Mat3 → ℚ)
    (candidates : List RegistrationResult) (hne : candidates ≠ []) :
    ((∀ c ∈ candidates, c.success = false) →
      ∃ rows, pick_best_registration_for_contour madPx candidates =
        .ok (candidates.head hne, none, rows)) ∧
    (∀ c0 ∈ candidates, c0.success = true →
      ∃ best m rows,
        pick_best_registration_for_contour madPx candidates =
          .ok (best, some m, rows) ∧ best ∈ candidates ∧
        best.success = true ∧ m = madPx best.homography ∧
        ∀ c ∈ candidates, c.success = true →
          m ≤ madPx c.homography) := by
  constructor
  · intro hall
    refine ⟨candidates.map (debugRowOf madPx), ?_⟩
    unfold pick_best_registration_for_contour
    rw [pickLoop_none hall]
    cases candidates with
    | nil => exact absurd rfl hne
    | cons c cs => rfl
  · intro c0 hc0 hc0s
    obtain ⟨r, rm, hr, hru, hrm, hrmem, hall⟩ :=
      pickLoop_some_of_success hc0 hc0s
    refine ⟨r, rm, candidates.map (debugRowOf madPx), ?_, hrmem, hru,
      hrm, hall⟩
    unfold pick_best_registration_for_contour
    rw [hr]

/-- Witness for claim C6: a three-candidate list where the second success
candidate scores lowest, plus an all-failed list returning its head. -/
theorem selector_picks_lowest_mad_witness :
    (∃ best m rows,
      pick_best_registration_for_contour (fun hm => hm 0 2)
        [candA, candB, candFail] = .ok (best, some m, rows) ∧
      best ∈ [candA, candB, candFail] ∧ best.success = true ∧
      m = (fun hm => hm 0 2) best.homography ∧
      ∀ c ∈ [candA, candB, candFail], c.success = true →
        m ≤ (fun hm => hm 0 2) c.homography) ∧
    (∃ rows, pick_best_registration_for_contour (fun hm => hm 0 2)
      [candFail] = .ok (candFail, none, rows)) := by
  constructor
  · exact (selector_picks_lowest_mad (fun hm => hm 0 2) _
      (by simp)).2 candA (List.mem_cons_self _ _) rfl
  · exact (selector_picks_lowest_mad (fun hm => hm 0 2) _ (by simp)).1
      (by
        intro c hc
        rcases List.mem_cons.mp hc with rfl | hc'
        · rfl
        · simp at hc')

/-! ## Claims: metrics -/

theorem foldl_max_mem : ∀ (xs : List ℚ) (x : ℚ), xs.foldl max x ∈ x :: xs
  | [], x => List.mem_cons_self x []
  | y :: ys, x => by
    rw [List.foldl_cons]
    have hthis := foldl_max_mem ys (max x y)
    rcases List.mem_cons.mp hthis with heq | hmem
    · rw [heq]
      rcases max_choice x y with hxy | hxy
      · rw [hxy]
        exact List.mem_cons_self x (y :: ys)
      · rw [hxy]
        exact List.mem_cons_of_mem x (List.mem_cons_self y ys)
    · exact List.mem_cons_of_mem x (List.mem_cons_of_mem y hmem)

theorem le_foldl_max : ∀ (xs : List ℚ) (x : ℚ),
    x ≤ xs.foldl max x ∧ ∀ z ∈ xs, z ≤ xs.foldl max x
  | [], x => ⟨le_refl x, by simp⟩
  | y :: ys, x => by
    obtain ⟨h1, h2⟩ := le_foldl_max ys (max x y)
    refine ⟨le_trans (le_max_left x y) h1, ?_⟩
    intro z hz
    rcases List.mem_cons.mp hz with rfl | hz'
    · exact le_trans (le_max_right x z) h1
    · exact h2 z hz'

/-- Claim C9: for every non-empty distance list, `compute_statistics`
returns `mad` equal to the arithmetic mean (sum over length) and
`max_error` equal to the maximum (a member that bounds every element);
on empty input it raises instead of returning a degenerate result. -/
theorem compute_statistics_spec :
    (∀ d : List ℚ, d ≠ [] → ∃ s, compute_statistics d = .ok s ∧
      s.mad = d.sum / d.length ∧ s.max_error ∈ d ∧
      ∀ x ∈ d, x ≤ s.max_error) ∧
    compute_statistics [] = .error "Distance array is empty" := by
  constructor
  · intro d hd
    have heq : compute_statistics d = .ok
        { mad := listMean d
          std_sq := listMean (d.map (fun x => (x - listMean d) ^ 2))
          p95 := np_percentile d 95
          max_error := listMax d } := by
      unfold compute_statistics
      rw [if_neg (by simpa [List.isEmpty_iff] using hd)]
    refine ⟨_, heq, rfl, ?_, ?_⟩
    · show listMax d ∈ d
      cases d with
      | nil => exact absurd rfl hd
      | cons x xs => exact foldl_max_mem xs x
    · intro x hx
      show x ≤ listMax d
      cases d with
      | nil => exact absurd rfl hd
      | cons y ys =>
        rcases List.mem_cons.mp hx with rfl | hx'
        · exact (le_foldl_max ys x).1
        · exact (le_foldl_max ys y).2 x hx'
  · rfl

/-- Witness for claim C9 on a concrete distance list. -/
theorem compute_statistics_spec_witness :
    ∃ s, compute_statistics [1, 3] = .ok s ∧
      s.mad = ([1, 3] : List ℚ).sum / ([1, 3] : List ℚ).length ∧
      s.max_error ∈ ([1, 3] : List ℚ) ∧
      ∀ x ∈ ([1, 3] : List ℚ), x ≤ s.max_error :=
  compute_statistics_spec.1 [1, 3] (by simp)

/-- Claim C8: for every positive scale and tau, `compute_ipn` at zero MAD
returns exactly the score 100 (with the default clamps) and the tolerance
`tau * scale`. -/
theorem compute_ipn_zero_mad (S T : ℚ) (hS : 0 < S) (hT : 0 < T) :
    compute_ipn 0 S T = .ok (100, T * S) := by
  unfold compute_ipn
  rw [if_neg (not_le.mpr hS), if_neg (not_le.mpr hT)]
  norm_num

/-- Witness for claim C8 at concrete positive scale and tau. -/
theorem compute_ipn_zero_mad_witness :
    compute_ipn 0 2 3 = .ok (100, 3 * 2) :=
  compute_ipn_zero_mad 2 3 (by norm_num) (by norm_num)

end CutPrecision
